import Mathlib

/-!
Verification of the topology/feature engine of the `tce` package
(cluster-expansion features for alloys).

The Python source under verification is `src/tce/topology.py` together with
the static tables in `src/tce/constants.py`.  Tensors are embedded shallowly:

* a rank-`r` tensor whose axes all have length `n` is a function
  `(Fin r → Fin n) → ℚ` (`Tensor r n`);
* an adjacency stack (`sparse.COO` of shape `(M, N, N)`, boolean entries
  promoted to numbers on contraction) is `Fin M → Fin N → Fin N → ℚ`;
* a three-body stack of shape `(K, N, N, N)` is
  `Fin K → Fin N → Fin N → Fin N → ℚ`;
* a state matrix of shape `(N, T)` is `Fin N → Fin T → ℚ`;
* a flattened feature vector (`numpy` row-major `flatten` followed by
  `concatenate`) is a `List ℚ`;
* floating point arithmetic is idealised as exact arithmetic in `ℚ`
  (and in `ℝ` for the lattice cutoff tables, which contain square roots).

The spatial index (`scipy.spatial.KDTree`) is external to the repository;
its output is modelled by a parameter `pdist` giving the exact pairwise
(periodic) distances that the tree would report.
-/

namespace TCE

/-- Rank-`r` tensor all of whose axes have length `n`, with rational entries. -/
abbrev Tensor (r n : ℕ) := (Fin r → Fin n) → ℚ

/-- Embedding of the axis-defaulting line `if not axes: axes = tuple(range(tensor.ndim))`
in `symmetrize` (topology.py).  Python treats both `None` and an empty
tuple/list as falsy, so both select the full axis range. -/
def effectiveAxes (r : ℕ) (axes : Option (List (Fin r))) : List (Fin r) :=
  match axes with
  | none => List.finRange r
  | some l => if l = [] then List.finRange r else l

/-- Embedding of `sparse.moveaxis(tensor, src, dst)` for the case used by
`symmetrize`, where `dst` is a permutation of `src`: the axis at position
`src[t]` of the input becomes axis `dst[t]` of the result, and axes outside
`src` are untouched.  Hence the result at multi-index `v` reads the input at
the multi-index sending `a ∈ src` to `v (dst[index of a in src])`.
When `a ∉ src`, `indexOf` returns `src.length = dst.length`, so `getD`
falls back to `a` itself. -/
def moveaxisL {r n : ℕ} (T : Tensor r n) (src dst : List (Fin r)) : Tensor r n :=
  fun v => T (fun a => v (dst.getD (src.indexOf a) a))

/-- Embedding of `symmetrize(tensor, axes=None)` from topology.py:

    if not axes: axes = tuple(range(tensor.ndim))
    perms = list(permutations(axes))
    return sum(sparse.moveaxis(tensor, axes, perm) for perm in perms) / len(perms)

`itertools.permutations(axes)` enumerates all `len(axes)!` index
permutations of the tuple; `List.permutations'` enumerates exactly the same
multiset of permutations (in a different order, which is irrelevant since
the results are summed and counted). -/
def symmetrize {r n : ℕ} (T : Tensor r n) (axes : Option (List (Fin r)) := none) :
    Tensor r n :=
  let ax := effectiveAxes r axes
  let perms := ax.permutations'
  fun v => (perms.map (fun p => moveaxisL T ax p v)).sum / (perms.length : ℚ)

/-- Modelled from the spec (§4.4 TensorSymmetrizer): the action of a
permutation `σ` of the chosen axis subset `ax` on a multi-index; positions
outside `ax` are fixed. -/
def permAxes {r : ℕ} (ax : List (Fin r)) (σ : Equiv.Perm (Fin ax.length)) :
    Fin r → Fin r :=
  fun a => if h : a ∈ ax then ax.get (σ ⟨ax.indexOf a, List.indexOf_lt_length.mpr h⟩) else a

/-- Modelled from the spec (§4.4 TensorSymmetrizer): the tensor averaged over
every permutation of the chosen axes, `sym(T) = (1/k!) Σ_σ permute(T, σ)`
for `k` chosen axes. -/
def specSymmetrize {r n : ℕ} (T : Tensor r n) (ax : List (Fin r)) : Tensor r n :=
  fun v => (∑ σ : Equiv.Perm (Fin ax.length), T (v ∘ permAxes ax σ)) / (Nat.factorial ax.length : ℚ)

/-- The list of axis destinations produced by the index permutation `σ`. -/
def permList {r : ℕ} (ax : List (Fin r)) (σ : Equiv.Perm (Fin ax.length)) :
    List (Fin r) :=
  List.ofFn (fun i => ax.get (σ i))

theorem permList_mem_permutations {r : ℕ} (ax : List (Fin r))
    (σ : Equiv.Perm (Fin ax.length)) : permList ax σ ∈ ax.permutations' := by
  rw [List.mem_permutations']
  have h1 : List.Perm (permList ax σ) (List.ofFn ax.get) :=
    Equiv.Perm.ofFn_comp_perm σ ax.get
  rwa [List.ofFn_get] at h1

theorem permList_injective {r : ℕ} (ax : List (Fin r)) (hax : ax.Nodup) :
    Function.Injective (permList ax) := by
  intro σ τ h
  have h2 : (fun i => ax.get (σ i)) = fun i => ax.get (τ i) := List.ofFn_injective h
  ext i
  have h3 : ax.get (σ i) = ax.get (τ i) := congrFun h2 i
  exact Fin.val_eq_of_eq (List.nodup_iff_injective_get.mp hax h3)

theorem moveaxisL_permList {r n : ℕ} (T : Tensor r n) (ax : List (Fin r))
    (σ : Equiv.Perm (Fin ax.length)) (v : Fin r → Fin n) :
    moveaxisL T ax (permList ax σ) v = T (v ∘ permAxes ax σ) := by
  unfold moveaxisL
  congr 1
  funext a
  by_cases h : a ∈ ax
  · have hlt : ax.indexOf a < ax.length := List.indexOf_lt_length.mpr h
    have hlen : (permList ax σ).length = ax.length := by
      simp [permList]
    rw [List.getD_eq_getElem _ _ (by rw [hlen]; exact hlt)]
    simp only [Function.comp_apply, permAxes, dif_pos h]
    congr 1
    simp [permList, List.get_ofFn]
  · have hge : ax.indexOf a = ax.length := List.indexOf_eq_length.mpr h
    rw [List.getD_eq_default _ _ (by simp [permList, hge])]
    simp [permAxes, dif_neg h]

theorem symmetrize_eq_specSymmetrize {r n : ℕ} (T : Tensor r n)
    (axes : Option (List (Fin r))) (h : (effectiveAxes r axes).Nodup) :
    symmetrize T axes = specSymmetrize T (effectiveAxes r axes) := by
  set ax := effectiveAxes r axes with hax
  funext v
  show ((ax.permutations'.map (fun p => moveaxisL T ax p v)).sum) /
      (ax.permutations'.length : ℚ) = _
  have hlen : ax.permutations'.length = Nat.factorial ax.length := by
    rw [← (List.permutations_perm_permutations' ax).length_eq, List.length_permutations]
  have hnodup : ax.permutations'.Nodup :=
    (List.permutations_perm_permutations' ax).nodup_iff.mp (List.nodup_permutations ax h)
  have himg : Finset.image (permList ax) Finset.univ = ax.permutations'.toFinset := by
    apply Finset.eq_of_subset_of_card_le
    · intro p hp
      simp only [Finset.mem_image] at hp
      obtain ⟨σ, _, rfl⟩ := hp
      exact List.mem_toFinset.mpr (permList_mem_permutations ax σ)
    · rw [List.toFinset_card_of_nodup hnodup, hlen,
        Finset.card_image_of_injective _ (permList_injective ax h),
        Finset.card_univ, Fintype.card_perm, Fintype.card_fin]
  have hsum : (ax.permutations'.map (fun p => moveaxisL T ax p v)).sum =
      ∑ σ : Equiv.Perm (Fin ax.length), T (v ∘ permAxes ax σ) := by
    rw [← List.sum_toFinset _ hnodup, ← himg,
      Finset.sum_image (fun σ _ τ _ hst => permList_injective ax h hst)]
    exact Finset.sum_congr rfl (fun σ _ => moveaxisL_permList T ax σ v)
  rw [hsum, hlen]
  rfl

theorem permAxes_comp {r : ℕ} (ax : List (Fin r)) (hax : ax.Nodup)
    (σ τ : Equiv.Perm (Fin ax.length)) :
    permAxes ax τ ∘ permAxes ax σ = permAxes ax (τ * σ) := by
  funext a
  by_cases h : a ∈ ax
  · have hlt : ax.indexOf a < ax.length := List.indexOf_lt_length.mpr h
    have hmem : ax.get (σ ⟨ax.indexOf a, hlt⟩) ∈ ax := List.get_mem ax _ _
    simp only [Function.comp_apply, permAxes, dif_pos h, dif_pos hmem]
    have hidx : (⟨ax.indexOf (ax.get (σ ⟨ax.indexOf a, hlt⟩)),
        List.indexOf_lt_length.mpr hmem⟩ : Fin ax.length) = σ ⟨ax.indexOf a, hlt⟩ :=
      Fin.ext (List.get_indexOf hax _)
    rw [hidx]
    rfl
  · simp [Function.comp_apply, permAxes, dif_neg h]

theorem specSymmetrize_idem {r n : ℕ} (T : Tensor r n) (ax : List (Fin r))
    (hax : ax.Nodup) :
    specSymmetrize (specSymmetrize T ax) ax = specSymmetrize T ax := by
  funext v
  show (∑ τ : Equiv.Perm (Fin ax.length),
      specSymmetrize T ax (v ∘ permAxes ax τ)) / (Nat.factorial ax.length : ℚ) = _
  have hinner : ∀ τ : Equiv.Perm (Fin ax.length),
      specSymmetrize T ax (v ∘ permAxes ax τ) = specSymmetrize T ax v := by
    intro τ
    show (∑ σ : Equiv.Perm (Fin ax.length), T ((v ∘ permAxes ax τ) ∘ permAxes ax σ)) /
        (Nat.factorial ax.length : ℚ) = _
    congr 1
    rw [← Equiv.sum_comp (Equiv.mulLeft τ)
      (fun ρ : Equiv.Perm (Fin ax.length) => T (v ∘ permAxes ax ρ))]
    refine Finset.sum_congr rfl (fun σ _ => ?_)
    rw [Function.comp_assoc, permAxes_comp ax hax]
    rfl
  rw [Finset.sum_congr rfl (fun τ _ => hinner τ), Finset.sum_const, Finset.card_univ,
    Fintype.card_perm, Fintype.card_fin, nsmul_eq_mul]
  have hne : (Nat.factorial ax.length : ℚ) ≠ 0 := by
    exact_mod_cast Nat.factorial_ne_zero ax.length
  field_simp

theorem effectiveAxes_some_of_ne {r : ℕ} (ax : List (Fin r)) (h : ax ≠ []) :
    effectiveAxes r (some ax) = ax := by
  simp [effectiveAxes, h]

theorem eta_fin_two {n : ℕ} (v : Fin 2 → Fin n) : v = ![v 0, v 1] := by
  funext x
  fin_cases x <;> rfl

/-- Evaluation of `symmetrize` with default axes on a rank-2 tensor: the
average of the tensor and its transpose. -/
theorem symmetrize2_apply {n : ℕ} (T : Tensor 2 n) (a b : Fin n) :
    symmetrize T none ![a, b] = (T ![a, b] + T ![b, a]) / 2 := by
  have hax : effectiveAxes 2 (none : Option (List (Fin 2))) = [0, 1] := by decide
  have hperm : ([0, 1] : List (Fin 2)).permutations' = [[0, 1], [1, 0]] := by decide
  have hw1 : (fun x : Fin 2 => (![a, b] : Fin 2 → Fin n)
      ((([0, 1] : List (Fin 2)).getD (([0, 1] : List (Fin 2)).indexOf x) x))) = ![a, b] := by
    funext x; fin_cases x <;> rfl
  have hw2 : (fun x : Fin 2 => (![a, b] : Fin 2 → Fin n)
      ((([1, 0] : List (Fin 2)).getD (([0, 1] : List (Fin 2)).indexOf x) x))) = ![b, a] := by
    funext x; fin_cases x <;> rfl
  show ((effectiveAxes 2 none).permutations'.map
      (fun p => moveaxisL T (effectiveAxes 2 none) p ![a, b])).sum /
      ((effectiveAxes 2 none).permutations'.length : ℚ) = _
  rw [hax, hperm]
  simp only [List.map_cons, List.map_nil, List.sum_cons, List.sum_nil, List.length_cons,
    List.length_nil, moveaxisL]
  rw [hw1, hw2]
  norm_num

theorem symmetrize_axes01 {n : ℕ} (T : Tensor 2 n) :
    symmetrize T (some [0, 1]) = symmetrize T none := rfl

theorem symmetrize_axes012 {n : ℕ} (T : Tensor 3 n) :
    symmetrize T (some [0, 1, 2]) = symmetrize T none := rfl

/-- Evaluation of `symmetrize` with default axes on a rank-3 tensor: the
average over the six argument orderings. -/
theorem symmetrize3_apply {n : ℕ} (T : Tensor 3 n) (a b c : Fin n) :
    symmetrize T none ![a, b, c] =
      (T ![a, b, c] + T ![b, a, c] + T ![b, c, a] + T ![a, c, b] + T ![c, a, b] +
        T ![c, b, a]) / 6 := by
  have hax : effectiveAxes 3 (none : Option (List (Fin 3))) = [0, 1, 2] := by decide
  have hperm : ([0, 1, 2] : List (Fin 3)).permutations' =
      [[0, 1, 2], [1, 0, 2], [1, 2, 0], [0, 2, 1], [2, 0, 1], [2, 1, 0]] := by decide
  have hw : ∀ (x y z : Fin n), (fun t : Fin 3 => (![x, y, z] : Fin 3 → Fin n) t) =
      ![x, y, z] := fun x y z => rfl
  have hw1 : (fun t : Fin 3 => (![a, b, c] : Fin 3 → Fin n)
      ((([0, 1, 2] : List (Fin 3)).getD (([0, 1, 2] : List (Fin 3)).indexOf t) t))) =
      ![a, b, c] := by
    funext t; fin_cases t <;> rfl
  have hw2 : (fun t : Fin 3 => (![a, b, c] : Fin 3 → Fin n)
      ((([1, 0, 2] : List (Fin 3)).getD (([0, 1, 2] : List (Fin 3)).indexOf t) t))) =
      ![b, a, c] := by
    funext t; fin_cases t <;> rfl
  have hw3 : (fun t : Fin 3 => (![a, b, c] : Fin 3 → Fin n)
      ((([1, 2, 0] : List (Fin 3)).getD (([0, 1, 2] : List (Fin 3)).indexOf t) t))) =
      ![b, c, a] := by
    funext t; fin_cases t <;> rfl
  have hw4 : (fun t : Fin 3 => (![a, b, c] : Fin 3 → Fin n)
      ((([0, 2, 1] : List (Fin 3)).getD (([0, 1, 2] : List (Fin 3)).indexOf t) t))) =
      ![a, c, b] := by
    funext t; fin_cases t <;> rfl
  have hw5 : (fun t : Fin 3 => (![a, b, c] : Fin 3 → Fin n)
      ((([2, 0, 1] : List (Fin 3)).getD (([0, 1, 2] : List (Fin 3)).indexOf t) t))) =
      ![c, a, b] := by
    funext t; fin_cases t <;> rfl
  have hw6 : (fun t : Fin 3 => (![a, b, c] : Fin 3 → Fin n)
      ((([2, 1, 0] : List (Fin 3)).getD (([0, 1, 2] : List (Fin 3)).indexOf t) t))) =
      ![c, b, a] := by
    funext t; fin_cases t <;> rfl
  show ((effectiveAxes 3 none).permutations'.map
      (fun p => moveaxisL T (effectiveAxes 3 none) p ![a, b, c])).sum /
      ((effectiveAxes 3 none).permutations'.length : ℚ) = _
  rw [hax, hperm]
  simp only [List.map_cons, List.map_nil, List.sum_cons, List.sum_nil, List.length_cons,
    List.length_nil, moveaxisL]
  rw [hw1, hw2, hw3, hw4, hw5, hw6]
  norm_num
  ring

/-- Concrete 2×2 tensor `[[1,1],[0,1]]` from testable property P4. -/
def exTensor : Tensor 2 2 := fun v => if v 0 = 0 ∨ v 1 = 1 then 1 else 0

/-- Concrete 2×2 tensor `[[1,0.5],[0.5,1]]`, the expected symmetrization of
`exTensor` over both axes. -/
def exTensorSym : Tensor 2 2 := fun v => if v 0 = v 1 then 1 else 1/2

/-- C4: for every tensor and every subset of its axes (given as a duplicate-free
nonempty list), `symmetrize` equals the spec formula
`sym(T) = (1/k!) Σ_σ permute(T, σ)`; with no axes argument all axes are used;
and symmetrizing `[[1,1],[0,1]]` over both axes yields `[[1,0.5],[0.5,1]]`. -/
theorem symmetrize_matches_spec_average :
    (∀ (r n : ℕ) (T : Tensor r n) (ax : List (Fin r)), ax.Nodup → ax ≠ [] →
      symmetrize T (some ax) = specSymmetrize T ax) ∧
    (∀ (r n : ℕ) (T : Tensor r n),
      symmetrize T none = specSymmetrize T (List.finRange r)) ∧
    symmetrize exTensor none = exTensorSym := by
  refine ⟨?_, ?_, ?_⟩
  · intro r n T ax hnd hne
    have heff : effectiveAxes r (some ax) = ax := effectiveAxes_some_of_ne ax hne
    have := symmetrize_eq_specSymmetrize T (some ax) (by rw [heff]; exact hnd)
    rwa [heff] at this
  · intro r n T
    have heff : effectiveAxes r (none : Option (List (Fin r))) = List.finRange r := rfl
    have := symmetrize_eq_specSymmetrize T none
      (by rw [heff]; exact List.nodup_finRange r)
    rwa [heff] at this
  · funext v
    rw [eta_fin_two v, symmetrize2_apply]
    have htwo : ∀ x : Fin 2, x = 0 ∨ x = 1 := by decide
    rcases htwo (v 0) with h0 | h0 <;> rcases htwo (v 1) with h1 | h1 <;>
      rw [h0, h1] <;>
      norm_num [exTensor, exTensorSym, Matrix.cons_val_zero, Matrix.cons_val_one,
        Matrix.head_cons]

/-- Witness for C4: the general conjunct applied at the concrete tensor
`[[1,1],[0,1]]` and the full axis subset `[0, 1]`. -/
theorem symmetrize_matches_spec_average_witness :
    symmetrize exTensor (some [0, 1]) = specSymmetrize exTensor [0, 1] :=
  symmetrize_matches_spec_average.1 2 2 exTensor [0, 1] (by decide) (by decide)

/-- C5: `symmetrize` is idempotent over any fixed duplicate-free axis subset
(including the defaulted full axis range). -/
theorem symmetrize_idem {r n : ℕ} (T : Tensor r n) (axes : Option (List (Fin r)))
    (h : (effectiveAxes r axes).Nodup) :
    symmetrize (symmetrize T axes) axes = symmetrize T axes := by
  rw [symmetrize_eq_specSymmetrize _ _ h, symmetrize_eq_specSymmetrize _ _ h,
    specSymmetrize_idem _ _ h]

/-- Witness for C5: idempotence applied at the concrete tensor `[[1,1],[0,1]]`
and the axis subset consisting of the first axis only. -/
theorem symmetrize_idem_witness :
    symmetrize (symmetrize exTensor (some [0])) (some [0]) =
      symmetrize exTensor (some [0]) :=
  symmetrize_idem exTensor (some [0]) (by decide)

/-- C10: an explicitly empty axis subset is treated like an omitted argument
(both symmetrize over all axes), not like the identity map. -/
theorem symmetrize_empty_axes :
    (∀ (r n : ℕ) (T : Tensor r n), symmetrize T (some []) = symmetrize T none) ∧
    symmetrize exTensor (some []) ≠ exTensor := by
  constructor
  · intro r n T
    rfl
  · intro heq
    have h2 := congrFun heq ![1, 0]
    have h1 : symmetrize exTensor (some []) ![1, 0] = 1 / 2 := by
      rw [show symmetrize exTensor (some []) = symmetrize exTensor none from rfl,
        symmetrize2_apply]
      norm_num [exTensor, Matrix.cons_val_zero, Matrix.cons_val_one, Matrix.head_cons]
    rw [h1] at h2
    norm_num [exTensor, Matrix.cons_val_zero, Matrix.cons_val_one, Matrix.head_cons] at h2

/-- Embedding of `set(permutations(labels))` in `get_three_body_tensors`
(topology.py): the set of distinct permutations of a closure-table label
triple.  A `Finset` literal removes duplicates exactly as a Python `set`
does, so a triple with repeated entries yields fewer than six elements. -/
def distinctPerms {M : ℕ} (t : Fin M × Fin M × Fin M) :
    Finset (Fin M × Fin M × Fin M) :=
  {(t.1, t.2.1, t.2.2), (t.1, t.2.2, t.2.1), (t.2.1, t.1, t.2.2),
   (t.2.1, t.2.2, t.1), (t.2.2, t.1, t.2.1), (t.2.2, t.2.1, t.1)}

/-- Embedding of `get_three_body_tensors(lattice_structure, adjacency_tensors,
max_three_body_order)` (topology.py).  The Python function looks up
`STRUCTURE_TO_THREE_BODY_LABELS[lattice_structure][order]` for each
`order < max_three_body_order`; here the looked-up label triples are
abstracted into the function `labels` (with `K = max_three_body_order`), and
the triangle relation for each order is

    sum(einsum("ij,jk,ki->ijk", A[p], A[q], A[r])
        for p, q, r in set(permutations(labels))). -/
def getThreeBodyTensors {M N K : ℕ} (labels : Fin K → Fin M × Fin M × Fin M)
    (A : Fin M → Fin N → Fin N → ℚ) :
    Fin K → Fin N → Fin N → Fin N → ℚ :=
  fun ord i j k =>
    ∑ pqr ∈ distinctPerms (labels ord), A pqr.1 i j * A pqr.2.1 j k * A pqr.2.2 k i

/-- The two-body correlation blocks `contract("nij,iα,jβ->nαβ", A, S, S)` of
`get_feature_vector` (topology.py). -/
def twoBodyBlock {M N T : ℕ} (A : Fin M → Fin N → Fin N → ℚ)
    (S : Fin N → Fin T → ℚ) : Fin M → Fin T → Fin T → ℚ :=
  fun n a b => ∑ i, ∑ j, A n i j * S i a * S j b

/-- The three-body correlation blocks
`contract("nijk,iα,jβ,kγ->nαβγ", B, S, S, S)` of `get_feature_vector`. -/
def threeBodyBlock {K N T : ℕ} (B : Fin K → Fin N → Fin N → Fin N → ℚ)
    (S : Fin N → Fin T → ℚ) : Fin K → Fin T → Fin T → Fin T → ℚ :=
  fun n a b c => ∑ i, ∑ j, ∑ k, B n i j k * S i a * S j b * S k c

/-- Row-major enumeration of the index triples of an `(M, T, T)` tensor,
matching the order of `numpy.ndarray.flatten`. -/
def enum2 (M T : ℕ) : List (Fin M × Fin T × Fin T) :=
  (List.finRange M).flatMap fun n =>
    (List.finRange T).flatMap fun a => (List.finRange T).map fun b => (n, a, b)

/-- Row-major enumeration of the index quadruples of a `(K, T, T, T)` tensor. -/
def enum3 (K T : ℕ) : List (Fin K × Fin T × Fin T × Fin T) :=
  (List.finRange K).flatMap fun n =>
    (List.finRange T).flatMap fun a =>
      (List.finRange T).flatMap fun b => (List.finRange T).map fun c => (n, a, b, c)

/-- Row-major `flatten` of an `(M, T, T)` tensor into a list. -/
def flatten2 {M T : ℕ} (f : Fin M → Fin T → Fin T → ℚ) : List ℚ :=
  (enum2 M T).map fun x => f x.1 x.2.1 x.2.2

/-- Row-major `flatten` of a `(K, T, T, T)` tensor into a list. -/
def flatten3 {K T : ℕ} (f : Fin K → Fin T → Fin T → Fin T → ℚ) : List ℚ :=
  (enum3 K T).map fun x => f x.1 x.2.1 x.2.2.1 x.2.2.2

/-- Embedding of `get_feature_vector(adjacency_tensors, three_body_tensors,
state_matrix)` (topology.py): flattened two-body blocks concatenated with
flattened three-body blocks. -/
def getFeatureVector {M K N T : ℕ} (A : Fin M → Fin N → Fin N → ℚ)
    (B : Fin K → Fin N → Fin N → Fin N → ℚ) (S : Fin N → Fin T → ℚ) : List ℚ :=
  flatten2 (twoBodyBlock A S) ++ flatten3 (threeBodyBlock B S)

/-- The edit set of `get_feature_vector_difference`:
`sites = np.unique(np.where(initial_state_matrix != final_state_matrix)[0])`,
i.e. the sites whose rows differ in at least one type column. -/
def editSet {N T : ℕ} (Si Sf : Fin N → Fin T → ℚ) : Finset (Fin N) :=
  Finset.univ.filter fun i => ∃ t, Si i t ≠ Sf i t

/-- The contraction `contract("nij,iα,jβ->nαβ", truncated_adj, S[sites,:], S)`
of `get_feature_vector_difference`: the two-body contraction with the first
site axis restricted to the edit set. -/
def truncTwoBody {M N T : ℕ} (A : Fin M → Fin N → Fin N → ℚ)
    (E : Finset (Fin N)) (S : Fin N → Fin T → ℚ) : Fin M → Fin T → Fin T → ℚ :=
  fun n a b => ∑ i ∈ E, ∑ j, A n i j * S i a * S j b

/-- The contraction `contract("nijk,iα,jβ,kγ->nαβγ", truncated_thr, S[sites,:],
S, S)` of `get_feature_vector_difference`. -/
def truncThreeBody {K N T : ℕ} (B : Fin K → Fin N → Fin N → Fin N → ℚ)
    (E : Finset (Fin N)) (S : Fin N → Fin T → ℚ) :
    Fin K → Fin T → Fin T → Fin T → ℚ :=
  fun n a b c => ∑ i ∈ E, ∑ j, ∑ k, B n i j k * S i a * S j b * S k c

/-- View a `T × T` matrix as a rank-2 tensor in the `Tensor` encoding. -/
def uncurry2 {T : ℕ} (g : Fin T → Fin T → ℚ) : Tensor 2 T :=
  fun v => g (v 0) (v 1)

/-- View a `T × T × T` array as a rank-3 tensor in the `Tensor` encoding. -/
def uncurry3 {T : ℕ} (g : Fin T → Fin T → Fin T → ℚ) : Tensor 3 T :=
  fun v => g (v 0) (v 1) (v 2)

/-- One of the two per-state vectors built inside
`get_feature_vector_difference`:

    np.concatenate([
        2 * symmetrize(contract("nij,iα,jβ->nαβ", truncated_adj, S[sites,:], S),
                       axes=(1, 2)).flatten(),
        3 * symmetrize(contract("nijk,iα,jβ,kγ->nαβγ", truncated_thr, S[sites,:], S, S),
                       axes=(1, 2, 3)).flatten()])

Symmetrizing the `(M, T, T)` stack over axes `(1, 2)` leaves the stack axis
fixed and acts on each `T × T` slice as `symmetrize` over both of its axes,
so each slice is passed to `symmetrize` through `uncurry2` (and likewise for
the `(K, T, T, T)` stack through `uncurry3`). -/
def truncatedFeatureVec {M K N T : ℕ} (A : Fin M → Fin N → Fin N → ℚ)
    (B : Fin K → Fin N → Fin N → Fin N → ℚ) (E : Finset (Fin N))
    (S : Fin N → Fin T → ℚ) : List ℚ :=
  flatten2 (fun n a b =>
    2 * symmetrize (uncurry2 (truncTwoBody A E S n)) (some [0, 1]) ![a, b]) ++
  flatten3 (fun n a b c =>
    3 * symmetrize (uncurry3 (truncThreeBody B E S n)) (some [0, 1, 2]) ![a, b, c])

/-- Embedding of `get_feature_vector_difference(adjacency_tensors,
three_body_tensors, initial_state_matrix, final_state_matrix)` (topology.py):
the elementwise difference of the final and initial truncated, symmetrized,
weighted vectors. -/
def getFeatureVectorDifference {M K N T : ℕ} (A : Fin M → Fin N → Fin N → ℚ)
    (B : Fin K → Fin N → Fin N → Fin N → ℚ) (Si Sf : Fin N → Fin T → ℚ) :
    List ℚ :=
  List.zipWith (· - ·) (truncatedFeatureVec A B (editSet Si Sf) Sf)
    (truncatedFeatureVec A B (editSet Si Sf) Si)

theorem enum2_length (M T : ℕ) : (enum2 M T).length = M * T ^ 2 := by
  rw [enum2, List.length_flatMap]
  have h1 : (List.map (List.length ∘ fun n => (List.finRange T).flatMap fun a =>
      (List.finRange T).map fun b => (n, a, b)) (List.finRange M)) =
      List.map (fun _ => T * T) (List.finRange M) := by
    apply List.map_congr_left
    intro n _
    simp only [Function.comp_apply, List.length_flatMap]
    have h2 : (List.map (List.length ∘ fun a => (List.finRange T).map fun b => (n, a, b))
        (List.finRange T)) = List.map (fun _ => T) (List.finRange T) := by
      apply List.map_congr_left
      intro a _
      simp
    rw [h2, List.map_const', List.sum_replicate, smul_eq_mul, List.length_finRange]
  rw [h1, List.map_const', List.sum_replicate, smul_eq_mul, List.length_finRange]
  ring

theorem enum3_length (K T : ℕ) : (enum3 K T).length = K * T ^ 3 := by
  rw [enum3, List.length_flatMap]
  have h1 : (List.map (List.length ∘ fun n => (List.finRange T).flatMap fun a =>
      (List.finRange T).flatMap fun b => (List.finRange T).map fun c => (n, a, b, c))
      (List.finRange K)) = List.map (fun _ => T * (T * T)) (List.finRange K) := by
    apply List.map_congr_left
    intro n _
    simp only [Function.comp_apply, List.length_flatMap]
    have h2 : (List.map (List.length ∘ fun b => (List.finRange T).flatMap fun c =>
        (List.finRange T).map fun d => (n, b, c, d)) (List.finRange T)) =
        List.map (fun _ => T * T) (List.finRange T) := by
      apply List.map_congr_left
      intro b _
      simp only [Function.comp_apply, List.length_flatMap]
      have h3 : (List.map (List.length ∘ fun c => (List.finRange T).map fun d =>
          (n, b, c, d)) (List.finRange T)) = List.map (fun _ => T) (List.finRange T) := by
        apply List.map_congr_left
        intro c _
        simp
      rw [h3, List.map_const', List.sum_replicate, smul_eq_mul, List.length_finRange]
    rw [h2, List.map_const', List.sum_replicate, smul_eq_mul, List.length_finRange]
  rw [h1, List.map_const', List.sum_replicate, smul_eq_mul, List.length_finRange]
  ring

theorem flatten2_length {M T : ℕ} (f : Fin M → Fin T → Fin T → ℚ) :
    (flatten2 f).length = M * T ^ 2 := by
  rw [flatten2, List.length_map, enum2_length]

theorem flatten3_length {K T : ℕ} (f : Fin K → Fin T → Fin T → Fin T → ℚ) :
    (flatten3 f).length = K * T ^ 3 := by
  rw [flatten3, List.length_map, enum3_length]

theorem zipWith_sub_flatten2 {M T : ℕ} (f g : Fin M → Fin T → Fin T → ℚ) :
    List.zipWith (· - ·) (flatten2 f) (flatten2 g) =
      flatten2 (fun n a b => f n a b - g n a b) := by
  unfold flatten2
  rw [List.zipWith_map (· - ·) _ _ (enum2 M T) (enum2 M T), List.zipWith_same]

theorem zipWith_sub_flatten3 {K T : ℕ} (f g : Fin K → Fin T → Fin T → Fin T → ℚ) :
    List.zipWith (· - ·) (flatten3 f) (flatten3 g) =
      flatten3 (fun n a b c => f n a b c - g n a b c) := by
  unfold flatten3
  rw [List.zipWith_map (· - ·) _ _ (enum3 K T) (enum3 K T), List.zipWith_same]

theorem symmetrize_zero {r n : ℕ} (axes : Option (List (Fin r))) :
    symmetrize (fun _ : Fin r → Fin n => (0 : ℚ)) axes = fun _ => (0 : ℚ) := by
  funext v
  show ((effectiveAxes r axes).permutations'.map _).sum / _ = 0
  have h1 : ((effectiveAxes r axes).permutations'.map
      (fun p => moveaxisL (fun _ : Fin r → Fin n => (0 : ℚ)) (effectiveAxes r axes) p v)) =
      List.map (fun _ => (0 : ℚ)) (effectiveAxes r axes).permutations' :=
    List.map_congr_left (fun p _ => rfl)
  rw [h1, List.map_const', List.sum_replicate, smul_zero, zero_div]

/-- C2: with equal initial and final states the edit set is empty, and
`get_feature_vector_difference` returns the exact zero vector of full
feature-vector length `M·T² + K·T³`, which is also the length of
`get_feature_vector`. -/
theorem feature_diff_self_is_zero {M K N T : ℕ} (A : Fin M → Fin N → Fin N → ℚ)
    (B : Fin K → Fin N → Fin N → Fin N → ℚ) (S : Fin N → Fin T → ℚ) :
    getFeatureVectorDifference A B S S = List.replicate (M * T ^ 2 + K * T ^ 3) 0 ∧
    (getFeatureVector A B S).length = M * T ^ 2 + K * T ^ 3 := by
  constructor
  · unfold getFeatureVectorDifference
    have hE : editSet S S = (∅ : Finset (Fin N)) := by
      simp [editSet]
    rw [hE]
    have hvec : truncatedFeatureVec A B (∅ : Finset (Fin N)) S =
        List.replicate (M * T ^ 2 + K * T ^ 3) 0 := by
      unfold truncatedFeatureVec
      have hz2 : (fun n a b =>
          2 * symmetrize (uncurry2 (truncTwoBody A (∅ : Finset (Fin N)) S n))
            (some [0, 1]) ![a, b]) = fun (_ : Fin M) (_ _ : Fin T) => (0 : ℚ) := by
        funext n a b
        have hu : uncurry2 (truncTwoBody A (∅ : Finset (Fin N)) S n) =
            fun _ => (0 : ℚ) := by
          funext v
          simp [uncurry2, truncTwoBody]
        rw [hu, symmetrize_zero]
        ring
      have hz3 : (fun n a b c =>
          3 * symmetrize (uncurry3 (truncThreeBody B (∅ : Finset (Fin N)) S n))
            (some [0, 1, 2]) ![a, b, c]) =
          fun (_ : Fin K) (_ _ _ : Fin T) => (0 : ℚ) := by
        funext n a b c
        have hu : uncurry3 (truncThreeBody B (∅ : Finset (Fin N)) S n) =
            fun _ => (0 : ℚ) := by
          funext v
          simp [uncurry3, truncThreeBody]
        rw [hu, symmetrize_zero]
        ring
      rw [hz2, hz3]
      rw [show flatten2 (fun (_ : Fin M) (_ _ : Fin T) => (0 : ℚ)) =
          List.replicate (M * T ^ 2) 0 by
        rw [flatten2, List.map_const', enum2_length]]
      rw [show flatten3 (fun (_ : Fin K) (_ _ _ : Fin T) => (0 : ℚ)) =
          List.replicate (K * T ^ 3) 0 by
        rw [flatten3, List.map_const', enum3_length]]
      rw [List.replicate_add]
    rw [hvec]
    have hzip : ∀ (L : ℕ), List.zipWith (· - ·) (List.replicate L (0 : ℚ))
        (List.replicate L (0 : ℚ)) = List.replicate L (0 : ℚ) := by
      intro L
      induction L with
      | zero => rfl
      | succ k ih => simp [List.replicate_succ, ih]
    exact hzip _
  · rw [getFeatureVector, List.length_append, flatten2_length, flatten3_length]

/-- C3: each triangle tensor built by `get_three_body_tensors` is the sum,
over the set of distinct permutations `(p, q, r)` of the closure-table label
triple, of the entrywise products `A_p[i,j]·A_q[j,k]·A_r[k,i]`; in
particular a label triple with all entries equal, such as `(2,2,2)`, gives
exactly the single-permutation triangle relation, not a multiple of it. -/
theorem three_body_closure_sum {M N K : ℕ} (labels : Fin K → Fin M × Fin M × Fin M)
    (A : Fin M → Fin N → Fin N → ℚ) (ord : Fin K) (i j k : Fin N) :
    (getThreeBodyTensors labels A ord i j k =
      ∑ pqr ∈ distinctPerms (labels ord), A pqr.1 i j * A pqr.2.1 j k * A pqr.2.2 k i) ∧
    (∀ m : Fin M, labels ord = (m, m, m) →
      getThreeBodyTensors labels A ord i j k = A m i j * A m j k * A m k i) := by
  refine ⟨rfl, fun m hm => ?_⟩
  unfold getThreeBodyTensors
  rw [hm]
  have hsingle : distinctPerms (m, m, m) = {(m, m, m)} := by
    simp [distinctPerms]
  rw [hsingle, Finset.sum_singleton]

/-- Concrete three-shell adjacency stack used as a witness input. -/
def exAdjStack : Fin 3 → Fin 2 → Fin 2 → ℚ :=
  fun m i j => if i ≠ j then (m.val + 1 : ℚ) else 0

/-- Witness for C3: the label triple `(2,2,2)` (present in the BCC and
ideal-HCP closure tables) yields the single-permutation triangle relation. -/
theorem three_body_closure_sum_witness :
    getThreeBodyTensors (fun _ : Fin 1 => ((2, 2, 2) : Fin 3 × Fin 3 × Fin 3))
      exAdjStack 0 0 1 0 =
      exAdjStack 2 0 1 * exAdjStack 2 1 0 * exAdjStack 2 0 0 :=
  (three_body_closure_sum (fun _ : Fin 1 => ((2, 2, 2) : Fin 3 × Fin 3 × Fin 3))
    exAdjStack 0 0 1 0).2 2 rfl

theorem distinctPerms_mem_iff {M : ℕ} (t x : Fin M × Fin M × Fin M) :
    x ∈ distinctPerms t ↔ x = (t.1, t.2.1, t.2.2) ∨ x = (t.1, t.2.2, t.2.1) ∨
      x = (t.2.1, t.1, t.2.2) ∨ x = (t.2.1, t.2.2, t.1) ∨
      x = (t.2.2, t.1, t.2.1) ∨ x = (t.2.2, t.2.1, t.1) := by
  simp [distinctPerms]

theorem distinctPerms_swap23 {M : ℕ} (t : Fin M × Fin M × Fin M)
    {x : Fin M × Fin M × Fin M} (hx : x ∈ distinctPerms t) :
    (x.1, x.2.2, x.2.1) ∈ distinctPerms t := by
  rw [distinctPerms_mem_iff] at hx ⊢
  rcases hx with h | h | h | h | h | h <;> subst h <;> simp

theorem distinctPerms_rev {M : ℕ} (t : Fin M × Fin M × Fin M)
    {x : Fin M × Fin M × Fin M} (hx : x ∈ distinctPerms t) :
    (x.2.2, x.2.1, x.1) ∈ distinctPerms t := by
  rw [distinctPerms_mem_iff] at hx ⊢
  rcases hx with h | h | h | h | h | h <;> subst h <;> simp

theorem distinctPerms_cyc {M : ℕ} (t : Fin M × Fin M × Fin M)
    {x : Fin M × Fin M × Fin M} (hx : x ∈ distinctPerms t) :
    (x.2.2, x.1, x.2.1) ∈ distinctPerms t := by
  rw [distinctPerms_mem_iff] at hx ⊢
  rcases hx with h | h | h | h | h | h <;> subst h <;> simp

theorem distinctPerms_cycInv {M : ℕ} (t : Fin M × Fin M × Fin M)
    {x : Fin M × Fin M × Fin M} (hx : x ∈ distinctPerms t) :
    (x.2.1, x.2.2, x.1) ∈ distinctPerms t := by
  rw [distinctPerms_mem_iff] at hx ⊢
  rcases hx with h | h | h | h | h | h <;> subst h <;> simp

section ThreeBodySymmetry

variable {M N K : ℕ} (labels : Fin K → Fin M × Fin M × Fin M)
variable (A : Fin M → Fin N → Fin N → ℚ)

/-- The triangle tensors are invariant under swapping the first two site
indices when the adjacency relations are symmetric. -/
theorem threeBody_swap12 (hsym : ∀ n i j, A n i j = A n j i) (ord : Fin K)
    (i j k : Fin N) :
    getThreeBodyTensors labels A ord j i k = getThreeBodyTensors labels A ord i j k := by
  unfold getThreeBodyTensors
  refine Finset.sum_nbij' (fun x => (x.1, x.2.2, x.2.1)) (fun x => (x.1, x.2.2, x.2.1))
    (fun x hx => distinctPerms_swap23 _ hx) (fun x hx => distinctPerms_swap23 _ hx)
    (fun x _ => rfl) (fun x _ => rfl) ?_
  intro x _
  rw [hsym x.1 j i, hsym x.2.1 i k, hsym x.2.2 k j]
  ring

/-- The triangle tensors are invariant under swapping the last two site
indices when the adjacency relations are symmetric. -/
theorem threeBody_swap23 (hsym : ∀ n i j, A n i j = A n j i) (ord : Fin K)
    (i j k : Fin N) :
    getThreeBodyTensors labels A ord i k j = getThreeBodyTensors labels A ord i j k := by
  unfold getThreeBodyTensors
  refine Finset.sum_nbij' (fun x => (x.2.2, x.2.1, x.1)) (fun x => (x.2.2, x.2.1, x.1))
    (fun x hx => distinctPerms_rev _ hx) (fun x hx => distinctPerms_rev _ hx)
    (fun x _ => rfl) (fun x _ => rfl) ?_
  intro x _
  rw [hsym x.1 i k, hsym x.2.1 k j, hsym x.2.2 j i]
  ring

/-- The triangle tensors are invariant under the cyclic rotation of the three
site indices (no symmetry of the adjacency relations needed). -/
theorem threeBody_cyc (ord : Fin K) (i j k : Fin N) :
    getThreeBodyTensors labels A ord j k i = getThreeBodyTensors labels A ord i j k := by
  unfold getThreeBodyTensors
  refine Finset.sum_nbij' (fun x => (x.2.2, x.1, x.2.1)) (fun x => (x.2.1, x.2.2, x.1))
    (fun x hx => distinctPerms_cyc _ hx) (fun x hx => distinctPerms_cycInv _ hx)
    (fun x _ => rfl) (fun x _ => rfl) ?_
  intro x _
  ring

/-- The triangle tensors are invariant under swapping the outer two site
indices when the adjacency relations are symmetric. -/
theorem threeBody_swap13 (hsym : ∀ n i j, A n i j = A n j i) (ord : Fin K)
    (i j k : Fin N) :
    getThreeBodyTensors labels A ord k j i = getThreeBodyTensors labels A ord i j k := by
  rw [show getThreeBodyTensors labels A ord k j i =
      getThreeBodyTensors labels A ord i k j from threeBody_cyc labels A ord i k j,
    threeBody_swap23 labels A hsym ord i j k]

/-- Triangle tensors vanish when the first two site indices coincide, since
the first adjacency factor sits on the zero diagonal. -/
theorem threeBody_diag12 (hdiag : ∀ n i, A n i i = 0) (ord : Fin K) (i k : Fin N) :
    getThreeBodyTensors labels A ord i i k = 0 := by
  unfold getThreeBodyTensors
  refine Finset.sum_eq_zero fun x _ => ?_
  rw [hdiag x.1 i]
  ring

/-- Triangle tensors vanish when the last two site indices coincide. -/
theorem threeBody_diag23 (hdiag : ∀ n i, A n i i = 0) (ord : Fin K) (i j : Fin N) :
    getThreeBodyTensors labels A ord i j j = 0 := by
  unfold getThreeBodyTensors
  refine Finset.sum_eq_zero fun x _ => ?_
  rw [hdiag x.2.1 j]
  ring

/-- Triangle tensors vanish when the outer two site indices coincide. -/
theorem threeBody_diag13 (hdiag : ∀ n i, A n i i = 0) (ord : Fin K) (i j : Fin N) :
    getThreeBodyTensors labels A ord i j i = 0 := by
  unfold getThreeBodyTensors
  refine Finset.sum_eq_zero fun x _ => ?_
  rw [hdiag x.2.2 i]
  ring

end ThreeBodySymmetry

/-- The state matrix obtained from `S` by exchanging the rows of sites `s1`
and `s2` (the pairwise site-type swap of spec property P1). -/
def swapRows {N T : ℕ} (s1 s2 : Fin N) (S : Fin N → Fin T → ℚ) :
    Fin N → Fin T → ℚ :=
  fun i => if i = s1 then S s2 else if i = s2 then S s1 else S i

theorem swapRows_fst {N T : ℕ} (s1 s2 : Fin N) (S : Fin N → Fin T → ℚ) :
    swapRows s1 s2 S s1 = S s2 := by
  simp [swapRows]

theorem swapRows_snd {N T : ℕ} (s1 s2 : Fin N) (S : Fin N → Fin T → ℚ) :
    swapRows s1 s2 S s2 = S s1 := by
  unfold swapRows
  by_cases h : s2 = s1
  · rw [if_pos h, h]
  · rw [if_neg h, if_pos rfl]

theorem swapRows_other {N T : ℕ} (s1 s2 : Fin N) (S : Fin N → Fin T → ℚ)
    (i : Fin N) (h1 : i ≠ s1) (h2 : i ≠ s2) : swapRows s1 s2 S i = S i := by
  simp [swapRows, h1, h2]

theorem swapRows_eq_self {N T : ℕ} (s1 s2 : Fin N) (S : Fin N → Fin T → ℚ)
    (h : S s1 = S s2) : swapRows s1 s2 S = S := by
  funext i
  by_cases h1 : i = s1
  · rw [h1, swapRows_fst, h]
  · by_cases h2 : i = s2
    · rw [h2, swapRows_snd, h]
    · exact swapRows_other s1 s2 S i h1 h2

/-- Sites outside the edit set have equal rows in both states. -/
theorem editSet_not_mem {N T : ℕ} {Si Sf : Fin N → Fin T → ℚ} {i : Fin N}
    (h : i ∉ editSet Si Sf) : ∀ t, Si i t = Sf i t := by
  intro t
  by_contra hne
  exact h (Finset.mem_filter.mpr ⟨Finset.mem_univ i, ⟨t, hne⟩⟩)

/-- When the two swapped rows differ, the edit set of a pairwise swap is
exactly the unordered pair of swapped sites. -/
theorem editSet_swap {N T : ℕ} (s1 s2 : Fin N) (S : Fin N → Fin T → ℚ)
    (hne : S s1 ≠ S s2) :
    editSet S (swapRows s1 s2 S) = {s1, s2} ∧ s1 ≠ s2 := by
  have hs12 : s1 ≠ s2 := fun h => hne (by rw [h])
  refine ⟨?_, hs12⟩
  ext i
  simp only [editSet, Finset.mem_filter, Finset.mem_univ, true_and,
    Finset.mem_insert, Finset.mem_singleton]
  constructor
  · rintro ⟨t, ht⟩
    by_contra hcon
    push_neg at hcon
    exact ht (by rw [swapRows_other s1 s2 S i hcon.1 hcon.2])
  · rintro (rfl | rfl)
    · rw [swapRows_fst]
      exact Function.ne_iff.mp hne
    · rw [swapRows_snd]
      obtain ⟨t, ht⟩ := Function.ne_iff.mp hne
      exact ⟨t, fun hc => ht hc.symm⟩

section SwapCore

variable {M K N T : ℕ}
variable (A : Fin M → Fin N → Fin N → ℚ)

/-- The edit-set-confined two-body double sum is unchanged by a pairwise row
swap: the swap merely permutes the two sites, and the adjacency relation
restricted to the pair is invariant under that permutation because it is
symmetric with zero diagonal. -/
theorem pair_sum_vanish (hsym : ∀ n i j, A n i j = A n j i)
    (hdiag : ∀ n i, A n i i = 0) (Si : Fin N → Fin T → ℚ) (s1 s2 : Fin N)
    (hs12 : s1 ≠ s2) (n : Fin M) (a b : Fin T) :
    ∑ i ∈ ({s1, s2} : Finset (Fin N)), ∑ j ∈ ({s1, s2} : Finset (Fin N)),
      A n i j * (swapRows s1 s2 Si i a * swapRows s1 s2 Si j b -
        Si i a * Si j b) = 0 := by
  rw [Finset.sum_pair hs12, Finset.sum_pair hs12, Finset.sum_pair hs12]
  rw [swapRows_fst, swapRows_snd, hdiag n s1, hdiag n s2, hsym n s2 s1]
  ring

/-- Two-body part of the swap-correctness argument, per block entry
`(n, α, β)`: the naive two-body feature difference equals the doubled,
symmetrized, truncated difference computed by the incremental path. -/
theorem twoBody_swap_core (hsym : ∀ n i j, A n i j = A n j i)
    (hdiag : ∀ n i, A n i i = 0) (Si : Fin N → Fin T → ℚ) (s1 s2 : Fin N)
    (n : Fin M) (a b : Fin T) :
    twoBodyBlock A (swapRows s1 s2 Si) n a b - twoBodyBlock A Si n a b =
      (truncTwoBody A (editSet Si (swapRows s1 s2 Si)) (swapRows s1 s2 Si) n a b +
        truncTwoBody A (editSet Si (swapRows s1 s2 Si)) (swapRows s1 s2 Si) n b a) -
      (truncTwoBody A (editSet Si (swapRows s1 s2 Si)) Si n a b +
        truncTwoBody A (editSet Si (swapRows s1 s2 Si)) Si n b a) := by
  by_cases hrows : Si s1 = Si s2
  · rw [swapRows_eq_self s1 s2 Si hrows]
    ring
  · obtain ⟨hE, hs12⟩ := editSet_swap s1 s2 Si hrows
    rw [hE]
    set Sf := swapRows s1 s2 Si with hSf
    set P : Finset (Fin N) := {s1, s2} with hP
    set D2 : Fin N → Fin N → ℚ :=
      fun i j => A n i j * (Sf i a * Sf j b - Si i a * Si j b) with hD2
    have hall : twoBodyBlock A Sf n a b - twoBodyBlock A Si n a b =
        ∑ i, ∑ j, D2 i j := by
      unfold twoBodyBlock
      rw [← Finset.sum_sub_distrib]
      refine Finset.sum_congr rfl fun i _ => ?_
      rw [← Finset.sum_sub_distrib]
      refine Finset.sum_congr rfl fun j _ => ?_
      rw [hD2]
      ring
    have hrow : truncTwoBody A P Sf n a b - truncTwoBody A P Si n a b =
        ∑ i ∈ P, ∑ j, D2 i j := by
      unfold truncTwoBody
      rw [← Finset.sum_sub_distrib]
      refine Finset.sum_congr rfl fun i _ => ?_
      rw [← Finset.sum_sub_distrib]
      refine Finset.sum_congr rfl fun j _ => ?_
      rw [hD2]
      ring
    have hcol : truncTwoBody A P Sf n b a - truncTwoBody A P Si n b a =
        ∑ i, ∑ j ∈ P, D2 i j := by
      have step1 : truncTwoBody A P Sf n b a - truncTwoBody A P Si n b a =
          ∑ i ∈ P, ∑ j, A n i j * (Sf i b * Sf j a - Si i b * Si j a) := by
        unfold truncTwoBody
        rw [← Finset.sum_sub_distrib]
        refine Finset.sum_congr rfl fun i _ => ?_
        rw [← Finset.sum_sub_distrib]
        exact Finset.sum_congr rfl fun j _ => by ring
      rw [step1, Finset.sum_comm]
      refine Finset.sum_congr rfl fun x _ => ?_
      refine Finset.sum_congr rfl fun y _ => ?_
      show A n y x * (Sf y b * Sf x a - Si y b * Si x a) = D2 x y
      show A n y x * (Sf y b * Sf x a - Si y b * Si x a) =
        A n x y * (Sf x a * Sf y b - Si x a * Si y b)
      rw [hsym n y x]
      ring
    rw [show (truncTwoBody A P Sf n a b + truncTwoBody A P Sf n b a) -
        (truncTwoBody A P Si n a b + truncTwoBody A P Si n b a) =
        (truncTwoBody A P Sf n a b - truncTwoBody A P Si n a b) +
        (truncTwoBody A P Sf n b a - truncTwoBody A P Si n b a) from by ring]
    rw [hall, hrow, hcol]
    have hsplit_all : (∑ i, ∑ j, D2 i j) =
        (∑ i ∈ P, ∑ j, D2 i j) + (∑ i ∈ Pᶜ, ∑ j, D2 i j) :=
      (Finset.sum_add_sum_compl P _).symm
    have hsplit_col : (∑ i, ∑ j ∈ P, D2 i j) =
        (∑ i ∈ P, ∑ j ∈ P, D2 i j) + (∑ i ∈ Pᶜ, ∑ j ∈ P, D2 i j) :=
      (Finset.sum_add_sum_compl P _).symm
    have hsplit_rest : (∑ i ∈ Pᶜ, ∑ j, D2 i j) =
        (∑ i ∈ Pᶜ, ∑ j ∈ P, D2 i j) + (∑ i ∈ Pᶜ, ∑ j ∈ Pᶜ, D2 i j) := by
      rw [← Finset.sum_add_distrib]
      exact Finset.sum_congr rfl fun i _ => (Finset.sum_add_sum_compl P _).symm
    have houter : ∀ i ∈ Pᶜ, Sf i = Si i := by
      intro i hi
      rw [Finset.mem_compl, hP, Finset.mem_insert, Finset.mem_singleton] at hi
      push_neg at hi
      exact swapRows_other s1 s2 Si i hi.1 hi.2
    have hcc : (∑ i ∈ Pᶜ, ∑ j ∈ Pᶜ, D2 i j) = 0 := by
      refine Finset.sum_eq_zero fun i hi => Finset.sum_eq_zero fun j hj => ?_
      show A n i j * (Sf i a * Sf j b - Si i a * Si j b) = 0
      rw [congrFun (houter i hi) a, congrFun (houter j hj) b]
      ring
    have hpp : (∑ i ∈ P, ∑ j ∈ P, D2 i j) = 0 := by
      rw [hD2, hP]
      exact pair_sum_vanish A hsym hdiag Si s1 s2 hs12 n a b
    rw [hsplit_all, hsplit_rest, hsplit_col, hcc, hpp]
    ring

end SwapCore

/-- Three-body part of the swap-correctness argument, per block entry
`(n, α, β, γ)`: the naive three-body feature difference equals the tripled,
symmetrized, truncated difference computed by the incremental path.  The
proof decomposes every site sum over the edit pair `{s1, s2}` and its
complement, uses the full permutation symmetry of the triangle tensors (from
adjacency symmetry) and their vanishing on repeated site indices (from the
zero adjacency diagonal), and cancels the pair-confined contributions, which
are invariant under the row swap. -/
theorem threeBody_swap_core {M K N T : ℕ} (A : Fin M → Fin N → Fin N → ℚ)
    (labels : Fin K → Fin M × Fin M × Fin M)
    (hsym : ∀ n i j, A n i j = A n j i) (hdiag : ∀ n i, A n i i = 0)
    (Si : Fin N → Fin T → ℚ) (s1 s2 : Fin N) (n : Fin K) (a b c : Fin T) :
    threeBodyBlock (getThreeBodyTensors labels A) (swapRows s1 s2 Si) n a b c -
      threeBodyBlock (getThreeBodyTensors labels A) Si n a b c =
      3 * symmetrize (uncurry3 (truncThreeBody (getThreeBodyTensors labels A)
          (editSet Si (swapRows s1 s2 Si)) (swapRows s1 s2 Si) n)) (some [0, 1, 2])
          ![a, b, c] -
      3 * symmetrize (uncurry3 (truncThreeBody (getThreeBodyTensors labels A)
          (editSet Si (swapRows s1 s2 Si)) Si n)) (some [0, 1, 2]) ![a, b, c] := by
  set B := getThreeBodyTensors labels A with hB
  have hB12 : ∀ (o : Fin K) (i j k : Fin N), B o j i k = B o i j k := fun o i j k => by
    rw [hB]; exact threeBody_swap12 labels A hsym o i j k
  have hB23 : ∀ (o : Fin K) (i j k : Fin N), B o i k j = B o i j k := fun o i j k => by
    rw [hB]; exact threeBody_swap23 labels A hsym o i j k
  have hB13 : ∀ (o : Fin K) (i j k : Fin N), B o k j i = B o i j k := fun o i j k => by
    rw [hB]; exact threeBody_swap13 labels A hsym o i j k
  have hBcyc : ∀ (o : Fin K) (i j k : Fin N), B o j k i = B o i j k := fun o i j k => by
    rw [hB]; exact threeBody_cyc labels A o i j k
  have hBcyc2 : ∀ (o : Fin K) (i j k : Fin N), B o k i j = B o i j k := fun o i j k => by
    rw [hBcyc o j k i, hBcyc o i j k]
  have hBd12 : ∀ (o : Fin K) (i k : Fin N), B o i i k = 0 := fun o i k => by
    rw [hB]; exact threeBody_diag12 labels A hdiag o i k
  have hBd23 : ∀ (o : Fin K) (i j : Fin N), B o i j j = 0 := fun o i j => by
    rw [hB]; exact threeBody_diag23 labels A hdiag o i j
  have hBd13 : ∀ (o : Fin K) (i j : Fin N), B o i j i = 0 := fun o i j => by
    rw [hB]; exact threeBody_diag13 labels A hdiag o i j
  have hun : ∀ (g : Fin T → Fin T → Fin T → ℚ) (x y z : Fin T),
      uncurry3 g ![x, y, z] = g x y z := fun _ _ _ _ => rfl
  rw [symmetrize_axes012, symmetrize_axes012, symmetrize3_apply, symmetrize3_apply]
  simp only [hun]
  by_cases hrows : Si s1 = Si s2
  · rw [swapRows_eq_self s1 s2 Si hrows]
    ring
  · obtain ⟨hE, hs12⟩ := editSet_swap s1 s2 Si hrows
    set Sf := swapRows s1 s2 Si with hSf
    rw [hE]
    set P : Finset (Fin N) := {s1, s2} with hP
    set D3 : Fin N → Fin N → Fin N → ℚ := fun i j k =>
      B n i j k * (Sf i a * Sf j b * Sf k c - Si i a * Si j b * Si k c) with hD3
    have hdelta : ∀ (x y z : Fin T),
        truncThreeBody B P Sf n x y z - truncThreeBody B P Si n x y z =
        ∑ i ∈ P, ∑ j, ∑ k,
          B n i j k * (Sf i x * Sf j y * Sf k z - Si i x * Si j y * Si k z) := by
      intro x y z
      unfold truncThreeBody
      rw [← Finset.sum_sub_distrib]
      refine Finset.sum_congr rfl fun i _ => ?_
      rw [← Finset.sum_sub_distrib]
      refine Finset.sum_congr rfl fun j _ => ?_
      rw [← Finset.sum_sub_distrib]
      exact Finset.sum_congr rfl fun k _ => by ring
    -- the six slot permutations of the truncated difference, in canonical form
    have h1 : truncThreeBody B P Sf n a b c - truncThreeBody B P Si n a b c =
        ∑ x ∈ P, ∑ y, ∑ z, D3 x y z := by
      rw [hdelta a b c]
    have h2 : truncThreeBody B P Sf n a c b - truncThreeBody B P Si n a c b =
        ∑ x ∈ P, ∑ y, ∑ z, D3 x y z := by
      rw [hdelta a c b]
      have e1 : (∑ x ∈ P, ∑ z, ∑ y, D3 x y z) = ∑ x ∈ P, ∑ y, ∑ z, D3 x y z :=
        Finset.sum_congr rfl fun x _ => Finset.sum_comm
      rw [← e1]
      refine Finset.sum_congr rfl fun x _ => ?_
      refine Finset.sum_congr rfl fun z _ => ?_
      refine Finset.sum_congr rfl fun y _ => ?_
      show B n x z y * (Sf x a * Sf z c * Sf y b - Si x a * Si z c * Si y b) =
        B n x y z * (Sf x a * Sf y b * Sf z c - Si x a * Si y b * Si z c)
      rw [hB23 n x y z]
      ring
    have h3 : truncThreeBody B P Sf n b a c - truncThreeBody B P Si n b a c =
        ∑ x, ∑ y ∈ P, ∑ z, D3 x y z := by
      rw [hdelta b a c]
      have e1 : (∑ y ∈ P, ∑ x, ∑ z, D3 x y z) = ∑ x, ∑ y ∈ P, ∑ z, D3 x y z :=
        Finset.sum_comm
      rw [← e1]
      refine Finset.sum_congr rfl fun y _ => ?_
      refine Finset.sum_congr rfl fun x _ => ?_
      refine Finset.sum_congr rfl fun z _ => ?_
      show B n y x z * (Sf y b * Sf x a * Sf z c - Si y b * Si x a * Si z c) =
        B n x y z * (Sf x a * Sf y b * Sf z c - Si x a * Si y b * Si z c)
      rw [hB12 n x y z]
      ring
    have h4 : truncThreeBody B P Sf n b c a - truncThreeBody B P Si n b c a =
        ∑ x, ∑ y ∈ P, ∑ z, D3 x y z := by
      rw [hdelta b c a]
      have e1 : (∑ y ∈ P, ∑ z, ∑ x, D3 x y z) = ∑ y ∈ P, ∑ x, ∑ z, D3 x y z :=
        Finset.sum_congr rfl fun y _ => Finset.sum_comm
      have e2 : (∑ y ∈ P, ∑ x, ∑ z, D3 x y z) = ∑ x, ∑ y ∈ P, ∑ z, D3 x y z :=
        Finset.sum_comm
      rw [← e2, ← e1]
      refine Finset.sum_congr rfl fun y _ => ?_
      refine Finset.sum_congr rfl fun z _ => ?_
      refine Finset.sum_congr rfl fun x _ => ?_
      show B n y z x * (Sf y b * Sf z c * Sf x a - Si y b * Si z c * Si x a) =
        B n x y z * (Sf x a * Sf y b * Sf z c - Si x a * Si y b * Si z c)
      rw [hBcyc n x y z]
      ring
    have h5 : truncThreeBody B P Sf n c a b - truncThreeBody B P Si n c a b =
        ∑ x, ∑ y, ∑ z ∈ P, D3 x y z := by
      rw [hdelta c a b]
      have e1 : (∑ z ∈ P, ∑ x, ∑ y, D3 x y z) = ∑ x, ∑ z ∈ P, ∑ y, D3 x y z :=
        Finset.sum_comm
      have e2 : (∑ x, ∑ z ∈ P, ∑ y, D3 x y z) = ∑ x, ∑ y, ∑ z ∈ P, D3 x y z :=
        Finset.sum_congr rfl fun x _ => Finset.sum_comm
      rw [← e2, ← e1]
      refine Finset.sum_congr rfl fun z _ => ?_
      refine Finset.sum_congr rfl fun x _ => ?_
      refine Finset.sum_congr rfl fun y _ => ?_
      show B n z x y * (Sf z c * Sf x a * Sf y b - Si z c * Si x a * Si y b) =
        B n x y z * (Sf x a * Sf y b * Sf z c - Si x a * Si y b * Si z c)
      rw [hBcyc2 n x y z]
      ring
    have h6 : truncThreeBody B P Sf n c b a - truncThreeBody B P Si n c b a =
        ∑ x, ∑ y, ∑ z ∈ P, D3 x y z := by
      rw [hdelta c b a]
      have e1 : (∑ z ∈ P, ∑ y, ∑ x, D3 x y z) = ∑ z ∈ P, ∑ x, ∑ y, D3 x y z :=
        Finset.sum_congr rfl fun z _ => Finset.sum_comm
      have e2 : (∑ z ∈ P, ∑ x, ∑ y, D3 x y z) = ∑ x, ∑ z ∈ P, ∑ y, D3 x y z :=
        Finset.sum_comm
      have e3 : (∑ x, ∑ z ∈ P, ∑ y, D3 x y z) = ∑ x, ∑ y, ∑ z ∈ P, D3 x y z :=
        Finset.sum_congr rfl fun x _ => Finset.sum_comm
      rw [← e3, ← e2, ← e1]
      refine Finset.sum_congr rfl fun z _ => ?_
      refine Finset.sum_congr rfl fun y _ => ?_
      refine Finset.sum_congr rfl fun x _ => ?_
      show B n z y x * (Sf z c * Sf y b * Sf x a - Si z c * Si y b * Si x a) =
        B n x y z * (Sf x a * Sf y b * Sf z c - Si x a * Si y b * Si z c)
      rw [hB13 n x y z]
      ring
    -- the naive difference as a full triple sum
    have hall : threeBodyBlock B Sf n a b c - threeBodyBlock B Si n a b c =
        ∑ x, ∑ y, ∑ z, D3 x y z := by
      unfold threeBodyBlock
      rw [← Finset.sum_sub_distrib]
      refine Finset.sum_congr rfl fun i _ => ?_
      rw [← Finset.sum_sub_distrib]
      refine Finset.sum_congr rfl fun j _ => ?_
      rw [← Finset.sum_sub_distrib]
      refine Finset.sum_congr rfl fun k _ => ?_
      show B n i j k * Sf i a * Sf j b * Sf k c -
          B n i j k * Si i a * Si j b * Si k c =
        B n i j k * (Sf i a * Sf j b * Sf k c - Si i a * Si j b * Si k c)
      ring
    -- splitting helpers over the pair and its complement
    have hsplitOuter : ∀ (g : Fin N → ℚ),
        (∑ x, g x) = (∑ x ∈ P, g x) + (∑ x ∈ Pᶜ, g x) :=
      fun g => (Finset.sum_add_sum_compl P g).symm
    have hsplitMid : ∀ (s : Finset (Fin N)) (g : Fin N → Fin N → ℚ),
        (∑ x ∈ s, ∑ y, g x y) =
          (∑ x ∈ s, ∑ y ∈ P, g x y) + (∑ x ∈ s, ∑ y ∈ Pᶜ, g x y) := by
      intro s g
      rw [← Finset.sum_add_distrib]
      exact Finset.sum_congr rfl fun x _ => hsplitOuter (g x)
    have hsplitInner : ∀ (s t : Finset (Fin N)) (g : Fin N → Fin N → Fin N → ℚ),
        (∑ x ∈ s, ∑ y ∈ t, ∑ z, g x y z) =
          (∑ x ∈ s, ∑ y ∈ t, ∑ z ∈ P, g x y z) +
          (∑ x ∈ s, ∑ y ∈ t, ∑ z ∈ Pᶜ, g x y z) := by
      intro s t g
      rw [← Finset.sum_add_distrib]
      refine Finset.sum_congr rfl fun x _ => ?_
      rw [← Finset.sum_add_distrib]
      exact Finset.sum_congr rfl fun y _ => hsplitOuter (g x y)
    -- rows outside the pair agree in both states
    have houter : ∀ z : Fin N, z ∈ Pᶜ → Sf z = Si z := by
      intro z hz
      rw [hP, Finset.mem_compl, Finset.mem_insert, Finset.mem_singleton] at hz
      push_neg at hz
      rw [hSf]
      exact swapRows_other s1 s2 Si z hz.1 hz.2
    have hmemP : ∀ x : Fin N, x ∈ P → x = s1 ∨ x = s2 := by
      intro x hx
      rw [hP, Finset.mem_insert, Finset.mem_singleton] at hx
      exact hx
    -- vanishing of the confined contributions
    have hccc : (∑ x ∈ Pᶜ, ∑ y ∈ Pᶜ, ∑ z ∈ Pᶜ, D3 x y z) = 0 := by
      refine Finset.sum_eq_zero fun x hx => Finset.sum_eq_zero fun y hy =>
        Finset.sum_eq_zero fun z hz => ?_
      show B n x y z * (Sf x a * Sf y b * Sf z c - Si x a * Si y b * Si z c) = 0
      rw [congrFun (houter x hx) a, congrFun (houter y hy) b, congrFun (houter z hz) c]
      ring
    have hppp : (∑ x ∈ P, ∑ y ∈ P, ∑ z ∈ P, D3 x y z) = 0 := by
      refine Finset.sum_eq_zero fun x hx => Finset.sum_eq_zero fun y hy =>
        Finset.sum_eq_zero fun z hz => ?_
      show B n x y z * (Sf x a * Sf y b * Sf z c - Si x a * Si y b * Si z c) = 0
      rcases hmemP x hx with rfl | rfl <;> rcases hmemP y hy with rfl | rfl <;>
        rcases hmemP z hz with rfl | rfl <;>
        first
        | (rw [hBd12]; ring)
        | (rw [hBd23]; ring)
        | (rw [hBd13]; ring)
    have hppc : (∑ x ∈ P, ∑ y ∈ P, ∑ z ∈ Pᶜ, D3 x y z) = 0 := by
      rw [hP]
      rw [Finset.sum_pair hs12, Finset.sum_pair hs12, Finset.sum_pair hs12,
        ← Finset.sum_add_distrib, ← Finset.sum_add_distrib, ← Finset.sum_add_distrib]
      refine Finset.sum_eq_zero fun z hz => ?_
      have hzz : Sf z = Si z := houter z (by rw [hP]; exact hz)
      show D3 s1 s1 z + D3 s1 s2 z + (D3 s2 s1 z + D3 s2 s2 z) = 0
      show B n s1 s1 z * (Sf s1 a * Sf s1 b * Sf z c - Si s1 a * Si s1 b * Si z c) +
          B n s1 s2 z * (Sf s1 a * Sf s2 b * Sf z c - Si s1 a * Si s2 b * Si z c) +
          (B n s2 s1 z * (Sf s2 a * Sf s1 b * Sf z c - Si s2 a * Si s1 b * Si z c) +
          B n s2 s2 z * (Sf s2 a * Sf s2 b * Sf z c - Si s2 a * Si s2 b * Si z c)) = 0
      rw [hBd12 n s1 z, hBd12 n s2 z, hB12 n s1 s2 z, congrFun hzz c, hSf,
        swapRows_fst, swapRows_snd]
      ring
    have hpcp : (∑ x ∈ P, ∑ y ∈ Pᶜ, ∑ z ∈ P, D3 x y z) = 0 := by
      rw [hP, Finset.sum_pair hs12, ← Finset.sum_add_distrib]
      refine Finset.sum_eq_zero fun y hy => ?_
      have hyy : Sf y = Si y := houter y (by rw [hP]; exact hy)
      rw [Finset.sum_pair hs12, Finset.sum_pair hs12]
      show D3 s1 y s1 + D3 s1 y s2 + (D3 s2 y s1 + D3 s2 y s2) = 0
      show B n s1 y s1 * (Sf s1 a * Sf y b * Sf s1 c - Si s1 a * Si y b * Si s1 c) +
          B n s1 y s2 * (Sf s1 a * Sf y b * Sf s2 c - Si s1 a * Si y b * Si s2 c) +
          (B n s2 y s1 * (Sf s2 a * Sf y b * Sf s1 c - Si s2 a * Si y b * Si s1 c) +
          B n s2 y s2 * (Sf s2 a * Sf y b * Sf s2 c - Si s2 a * Si y b * Si s2 c)) = 0
      rw [hBd13 n s1 y, hBd13 n s2 y, hB13 n s1 y s2, congrFun hyy b, hSf,
        swapRows_fst, swapRows_snd]
      ring
    have hcpp : (∑ x ∈ Pᶜ, ∑ y ∈ P, ∑ z ∈ P, D3 x y z) = 0 := by
      refine Finset.sum_eq_zero fun x hx => ?_
      have hxx : Sf x = Si x := houter x hx
      rw [hP, Finset.sum_pair hs12, Finset.sum_pair hs12, Finset.sum_pair hs12]
      show D3 x s1 s1 + D3 x s1 s2 + (D3 x s2 s1 + D3 x s2 s2) = 0
      show B n x s1 s1 * (Sf x a * Sf s1 b * Sf s1 c - Si x a * Si s1 b * Si s1 c) +
          B n x s1 s2 * (Sf x a * Sf s1 b * Sf s2 c - Si x a * Si s1 b * Si s2 c) +
          (B n x s2 s1 * (Sf x a * Sf s2 b * Sf s1 c - Si x a * Si s2 b * Si s1 c) +
          B n x s2 s2 * (Sf x a * Sf s2 b * Sf s2 c - Si x a * Si s2 b * Si s2 c)) = 0
      rw [hBd23 n x s1, hBd23 n x s2, hB23 n x s1 s2, congrFun hxx a, hSf,
        swapRows_fst, swapRows_snd]
      ring
    -- the key decomposition: the full sum equals the three one-slot-restricted sums
    have hkey : (∑ x, ∑ y, ∑ z, D3 x y z) =
        (∑ x ∈ P, ∑ y, ∑ z, D3 x y z) + (∑ x, ∑ y ∈ P, ∑ z, D3 x y z) +
        (∑ x, ∑ y, ∑ z ∈ P, D3 x y z) := by
      have eT3 : (∑ x, ∑ y, ∑ z ∈ P, D3 x y z) =
          (∑ x ∈ P, ∑ y ∈ P, ∑ z ∈ P, D3 x y z) +
          (∑ x ∈ P, ∑ y ∈ Pᶜ, ∑ z ∈ P, D3 x y z) +
          ((∑ x ∈ Pᶜ, ∑ y ∈ P, ∑ z ∈ P, D3 x y z) +
          (∑ x ∈ Pᶜ, ∑ y ∈ Pᶜ, ∑ z ∈ P, D3 x y z)) := by
        rw [hsplitOuter (fun x => ∑ y, ∑ z ∈ P, D3 x y z),
          hsplitMid P (fun x y => ∑ z ∈ P, D3 x y z),
          hsplitMid Pᶜ (fun x y => ∑ z ∈ P, D3 x y z)]
      have eT2 : (∑ x, ∑ y ∈ P, ∑ z, D3 x y z) =
          ((∑ x ∈ P, ∑ y ∈ P, ∑ z ∈ P, D3 x y z) +
          (∑ x ∈ P, ∑ y ∈ P, ∑ z ∈ Pᶜ, D3 x y z)) +
          ((∑ x ∈ Pᶜ, ∑ y ∈ P, ∑ z ∈ P, D3 x y z) +
          (∑ x ∈ Pᶜ, ∑ y ∈ P, ∑ z ∈ Pᶜ, D3 x y z)) := by
        rw [hsplitOuter (fun x => ∑ y ∈ P, ∑ z, D3 x y z),
          hsplitInner P P D3, hsplitInner Pᶜ P D3]
      have eT1 : (∑ x ∈ P, ∑ y, ∑ z, D3 x y z) =
          ((∑ x ∈ P, ∑ y ∈ P, ∑ z ∈ P, D3 x y z) +
          (∑ x ∈ P, ∑ y ∈ P, ∑ z ∈ Pᶜ, D3 x y z)) +
          ((∑ x ∈ P, ∑ y ∈ Pᶜ, ∑ z ∈ P, D3 x y z) +
          (∑ x ∈ P, ∑ y ∈ Pᶜ, ∑ z ∈ Pᶜ, D3 x y z)) := by
        rw [hsplitMid P (fun x y => ∑ z, D3 x y z),
          hsplitInner P P D3, hsplitInner P Pᶜ D3]
      have eAll : (∑ x, ∑ y, ∑ z, D3 x y z) =
          (((∑ x ∈ P, ∑ y ∈ P, ∑ z ∈ P, D3 x y z) +
          (∑ x ∈ P, ∑ y ∈ P, ∑ z ∈ Pᶜ, D3 x y z)) +
          ((∑ x ∈ P, ∑ y ∈ Pᶜ, ∑ z ∈ P, D3 x y z) +
          (∑ x ∈ P, ∑ y ∈ Pᶜ, ∑ z ∈ Pᶜ, D3 x y z))) +
          (((∑ x ∈ Pᶜ, ∑ y ∈ P, ∑ z ∈ P, D3 x y z) +
          (∑ x ∈ Pᶜ, ∑ y ∈ P, ∑ z ∈ Pᶜ, D3 x y z)) +
          ((∑ x ∈ Pᶜ, ∑ y ∈ Pᶜ, ∑ z ∈ P, D3 x y z) +
          (∑ x ∈ Pᶜ, ∑ y ∈ Pᶜ, ∑ z ∈ Pᶜ, D3 x y z))) := by
        rw [hsplitOuter (fun x => ∑ y, ∑ z, D3 x y z),
          hsplitMid P (fun x y => ∑ z, D3 x y z),
          hsplitMid Pᶜ (fun x y => ∑ z, D3 x y z),
          hsplitInner P P D3, hsplitInner P Pᶜ D3, hsplitInner Pᶜ P D3,
          hsplitInner Pᶜ Pᶜ D3]
      rw [eAll, eT1, eT2, eT3, hccc, hppp, hppc, hpcp, hcpp]
      ring
    rw [hall]
    linarith [h1, h2, h3, h4, h5, h6, hkey]

/-- C1 (amended): for every symmetric, zero-diagonal adjacency stack, with
three-body tensors built from it by `get_three_body_tensors`, and every state
pair related by a pairwise site swap (the edit pattern of spec property P1
and of the repository test `test_feature_vector_shortcut`),
`get_feature_vector_difference` equals the elementwise naive difference
`get_feature_vector(final) - get_feature_vector(initial)`. -/
theorem feature_diff_swap_eq_naive {M K N T : ℕ} (A : Fin M → Fin N → Fin N → ℚ)
    (labels : Fin K → Fin M × Fin M × Fin M) (Si : Fin N → Fin T → ℚ)
    (s1 s2 : Fin N) (hsym : ∀ n i j, A n i j = A n j i)
    (hdiag : ∀ n i, A n i i = 0) :
    getFeatureVectorDifference A (getThreeBodyTensors labels A) Si
      (swapRows s1 s2 Si) =
    List.zipWith (· - ·)
      (getFeatureVector A (getThreeBodyTensors labels A) (swapRows s1 s2 Si))
      (getFeatureVector A (getThreeBodyTensors labels A) Si) := by
  unfold getFeatureVectorDifference getFeatureVector truncatedFeatureVec
  rw [List.zipWith_append _ _ _ _ _ (by rw [flatten2_length, flatten2_length]),
    List.zipWith_append _ _ _ _ _ (by rw [flatten2_length, flatten2_length]),
    zipWith_sub_flatten2, zipWith_sub_flatten3, zipWith_sub_flatten2,
    zipWith_sub_flatten3]
  congr 1
  · apply congrArg flatten2
    funext n a b
    have hun2 : ∀ (g : Fin T → Fin T → ℚ) (x y : Fin T),
        uncurry2 g ![x, y] = g x y := fun _ _ _ => rfl
    rw [symmetrize_axes01, symmetrize_axes01, symmetrize2_apply, symmetrize2_apply]
    simp only [hun2]
    rw [twoBody_swap_core A hsym hdiag Si s1 s2 n a b]
    ring
  · apply congrArg flatten3
    funext n a b c
    exact (threeBody_swap_core A labels hsym hdiag Si s1 s2 n a b c).symm

/-- Single-shell adjacency relation on two sites: `[[0,1],[1,0]]`. -/
def wA : Fin 1 → Fin 2 → Fin 2 → ℚ := fun _ i j => if i = j then 0 else 1

/-- Closure-label table with the single triple `(0,0,0)`, as in the FCC table. -/
def wLabels : Fin 1 → Fin 1 × Fin 1 × Fin 1 := fun _ => (0, 0, 0)

/-- Concrete one-type state matrix on two sites. -/
def wSi : Fin 2 → Fin 1 → ℚ := fun i _ => if i = 0 then 1 else 5

/-- Witness for C1 (amended): the swap-correctness theorem applied at a
concrete two-site topology and state, with the symmetry and zero-diagonal
hypotheses discharged by computation. -/
theorem feature_diff_swap_eq_naive_witness :
    getFeatureVectorDifference wA (getThreeBodyTensors wLabels wA) wSi
      (swapRows 0 1 wSi) =
    List.zipWith (· - ·)
      (getFeatureVector wA (getThreeBodyTensors wLabels wA) (swapRows 0 1 wSi))
      (getFeatureVector wA (getThreeBodyTensors wLabels wA) wSi) :=
  feature_diff_swap_eq_naive wA wLabels wSi 0 1
    (fun n i j => by fin_cases i <;> fin_cases j <;> rfl)
    (fun n i => by fin_cases i <;> rfl)

/-- Initial state for the C1 counterexample: both sites hold value 1. -/
def cexSi : Fin 2 → Fin 1 → ℚ := fun _ _ => 1

/-- Final state for the C1 counterexample: the two rows change to 2 and 3 —
an edit that spans the whole two-site system but is not a row swap. -/
def cexSf : Fin 2 → Fin 1 → ℚ := fun i _ => if i = 0 then 2 else 3

/-- The three-body tensors built from `wA` and `wLabels` vanish identically:
with only two sites, every triangle has a repeated vertex. -/
theorem wB_zero : ∀ i j k : Fin 2,
    getThreeBodyTensors wLabels wA 0 i j k = 0 := by
  intro i j k
  have hdp : distinctPerms ((0, 0, 0) : Fin 1 × Fin 1 × Fin 1) = {(0, 0, 0)} := by
    simp [distinctPerms]
  show ∑ pqr ∈ distinctPerms (wLabels 0), wA pqr.1 i j * wA pqr.2.1 j k * wA pqr.2.2 k i = 0
  rw [show wLabels 0 = ((0, 0, 0) : Fin 1 × Fin 1 × Fin 1) from rfl, hdp,
    Finset.sum_singleton]
  fin_cases i <;> fin_cases j <;> fin_cases k <;> norm_num [wA]

/-- Counterexample to C1 as stated: for the general (non-swap) whole-system
edit from `cexSi` to `cexSf`, `get_feature_vector_difference` returns twice
the edit-confined contribution and differs from the naive difference
`get_feature_vector(final) - get_feature_vector(initial)` (entry 0 is 20
rather than 10). -/
theorem feature_diff_general_counterexample :
    getFeatureVectorDifference wA (getThreeBodyTensors wLabels wA) cexSi cexSf ≠
    List.zipWith (· - ·)
      (getFeatureVector wA (getThreeBodyTensors wLabels wA) cexSf)
      (getFeatureVector wA (getThreeBodyTensors wLabels wA) cexSi) := by
  have hE : editSet cexSi cexSf = Finset.univ := by
    ext i
    simp only [editSet, Finset.mem_filter, Finset.mem_univ, true_and, iff_true]
    fin_cases i
    · exact ⟨0, by norm_num [cexSi, cexSf]⟩
    · exact ⟨0, by norm_num [cexSi, cexSf]⟩
  have henum2 : enum2 1 1 = [((0 : Fin 1), (0 : Fin 1), (0 : Fin 1))] := by decide
  have henum3 : enum3 1 1 = [((0 : Fin 1), (0 : Fin 1), (0 : Fin 1), (0 : Fin 1))] := by
    decide
  have hun2 : ∀ (g : Fin 1 → Fin 1 → ℚ) (x y : Fin 1),
      uncurry2 g ![x, y] = g x y := fun _ _ _ => rfl
  have hun3 : ∀ (g : Fin 1 → Fin 1 → Fin 1 → ℚ) (x y z : Fin 1),
      uncurry3 g ![x, y, z] = g x y z := fun _ _ _ _ => rfl
  have htrunc3 : ∀ (S : Fin 2 → Fin 1 → ℚ) (x y z : Fin 1),
      truncThreeBody (getThreeBodyTensors wLabels wA) Finset.univ S 0 x y z = 0 := by
    intro S x y z
    unfold truncThreeBody
    refine Finset.sum_eq_zero fun i _ => Finset.sum_eq_zero fun j _ =>
      Finset.sum_eq_zero fun k _ => ?_
    rw [wB_zero i j k]
    ring
  have htwo : ∀ (S : Fin 2 → Fin 1 → ℚ),
      truncTwoBody wA Finset.univ S 0 0 0 =
        S 0 0 * S 1 0 + S 1 0 * S 0 0 := by
    intro S
    unfold truncTwoBody
    rw [Fin.sum_univ_two, Fin.sum_univ_two, Fin.sum_univ_two]
    norm_num [wA]
  have hblock : ∀ (S : Fin 2 → Fin 1 → ℚ),
      twoBodyBlock wA S 0 0 0 = S 0 0 * S 1 0 + S 1 0 * S 0 0 := by
    intro S
    unfold twoBodyBlock
    rw [Fin.sum_univ_two, Fin.sum_univ_two, Fin.sum_univ_two]
    norm_num [wA]
  have hthreeblock : ∀ (S : Fin 2 → Fin 1 → ℚ),
      threeBodyBlock (getThreeBodyTensors wLabels wA) S 0 0 0 0 = 0 := by
    intro S
    unfold threeBodyBlock
    refine Finset.sum_eq_zero fun i _ => Finset.sum_eq_zero fun j _ =>
      Finset.sum_eq_zero fun k _ => ?_
    rw [wB_zero i j k]
    ring
  intro hcon
  unfold getFeatureVectorDifference truncatedFeatureVec getFeatureVector at hcon
  rw [hE] at hcon
  simp only [flatten2, flatten3, henum2, henum3, List.map_cons, List.map_nil,
    List.singleton_append, List.zipWith_cons_cons, List.zipWith_nil_right,
    List.cons.injEq, and_true] at hcon
  obtain ⟨h1, _⟩ := hcon
  rw [symmetrize_axes01, symmetrize2_apply, symmetrize_axes01, symmetrize2_apply] at h1
  simp only [hun2] at h1
  rw [htwo cexSf, htwo cexSi, hblock cexSf, hblock cexSi] at h1
  norm_num [cexSi, cexSf] at h1

section Shells

variable {α : Type} [LinearOrderedField α]

/-- Embedding of `get_distance_matrix(positions, boxsize, max_distance)`
(topology.py).  The `scipy.spatial.KDTree` is external to this repository;
`pdist i j` stands for the exact (periodic) pairwise distance the tree
computes from `positions` and `boxsize`.  `sparse_distance_matrix` stores the
pairs at distance at most `max_distance`, and `eliminate_zeros` drops the
zero entries (the diagonal and coincident sites); an absent sparse entry is
the fill value `0`.  The Python function contains no validation and no
`raise`: a non-positive `max_distance` simply yields the empty matrix. -/
def getDistanceMatrix {N : ℕ} (pdist : Fin N → Fin N → α) (maxDistance : α) :
    Fin N → Fin N → α :=
  fun i j => if pdist i j ≤ maxDistance ∧ pdist i j ≠ 0 then pdist i j else 0

/-- Modelled from the spec (§7 Error handling design): the spec's
`ConfigurationError` for an invalid cutoff.  No such error class or `raise`
statement exists anywhere in `topology.py` or `constants.py`. -/
inductive TCEError : Type
  | configurationError : TCEError
deriving DecidableEq

/-- The distance-index operation with its error channel made explicit, so the
spec's claim that it raises can be stated: since `get_distance_matrix` has no
raise path, the embedding always returns `Except.ok`. -/
def getDistanceMatrixE {N : ℕ} (pdist : Fin N → Fin N → α) (maxDistance : α) :
    Except TCEError (Fin N → Fin N → α) :=
  Except.ok (getDistanceMatrix pdist maxDistance)

/-- One shell predicate: the relative tolerance band
`(1-tol)·low < d < (1+tol)·high` applied entrywise to the sparse distance
matrix (absent entries read as `0`), producing a boolean relation as
`sparse.where(cond, x=True, y=False)` does. -/
def bandPred {N : ℕ} (D : Fin N → Fin N → α) (tol lo hi : α) :
    Fin N → Fin N → Bool :=
  fun i j => decide ((1 - tol) * lo < D i j ∧ D i j < (1 + tol) * hi)

/-- Row-major enumeration of all index pairs of an `N × N` matrix. -/
def enumPairs (N : ℕ) : List (Fin N × Fin N) :=
  (List.finRange N).flatMap fun i => (List.finRange N).map fun j => (i, j)

/-- The stored entries `distances.data` of the sparse distance matrix: all
nonzero entries (both orientations of each pair are stored). -/
def cooData {N : ℕ} (D : Fin N → Fin N → α) : List α :=
  ((enumPairs N).map fun x => D x.1 x.2).filter fun d => d ≠ 0

/-- The histogram range used by `np.histogram(data, bins)` when no explicit
range is passed: `(min, max)` of the data, `(v - 0.5, v + 0.5)` when all
data equal `v`, and `(0, 1)` for empty data. -/
def histRange (data : List α) : α × α :=
  match data with
  | [] => (0, 1)
  | x :: xs =>
    let lo := xs.foldl min x
    let hi := xs.foldl max x
    if lo = hi then (lo - 1 / 2, hi + 1 / 2) else (lo, hi)

/-- The equally spaced bin edges of `np.histogram`: `bins + 1` points from
`lo` to `hi`. -/
def histEdges (lo hi : α) (bins : ℕ) : List α :=
  (List.range (bins + 1)).map fun t : ℕ => lo + (t : α) * (hi - lo) / bins

/-- The list of shell relations built by `get_adjacency_tensors_binning`
(topology.py): histogram the stored distances into `max_adjacency_order`
bins and turn each consecutive edge pair into a tolerance-band predicate. -/
def binningShells {N : ℕ} (pdist : Fin N → Fin N → α) (maxDistance : α)
    (maxAdjacencyOrder : ℕ) (tolerance : α) : List (Fin N → Fin N → Bool) :=
  let D := getDistanceMatrix pdist maxDistance
  let data := cooData D
  let r := histRange data
  let edges := histEdges r.1 r.2 maxAdjacencyOrder
  (edges.zip edges.tail).map fun e => bandPred D tolerance e.1 e.2

/-- Modelled error of `sparse.stack` on an empty list of tensors (a
`ValueError`, as for `numpy.stack`). -/
inductive SparseStackError : Type
  | emptyStack : SparseStackError
deriving DecidableEq

/-- Embedding of `get_adjacency_tensors_binning` including the
`sparse.stack` failure on an empty shell list. -/
def getAdjacencyTensorsBinning {N : ℕ} (pdist : Fin N → Fin N → α)
    (maxDistance : α) (maxAdjacencyOrder : ℕ) (tolerance : α) :
    Except SparseStackError (List (Fin N → Fin N → Bool)) :=
  let shells := binningShells pdist maxDistance maxAdjacencyOrder tolerance
  if shells.isEmpty then Except.error SparseStackError.emptyStack
  else Except.ok shells

end Shells

/-- The four lattice structures of `constants.py`. -/
inductive LatticeStructure : Type
  | SC | BCC | FCC | IDEAL_HCP
deriving DecidableEq

/-- Embedding of `STRUCTURE_TO_CUTOFF_LISTS` (constants.py): the per-structure
shell-boundary multipliers, with the exact irrational square roots of the
source idealised as real numbers. -/
noncomputable def STRUCTURE_TO_CUTOFF_LISTS : LatticeStructure → List ℝ
  | LatticeStructure.SC => [0, 1, Real.sqrt 2, Real.sqrt 3, 2]
  | LatticeStructure.BCC =>
      [0, 0.5 * Real.sqrt 3, 1, Real.sqrt 2, 0.5 * Real.sqrt 11]
  | LatticeStructure.FCC =>
      [0, 0.5 * Real.sqrt 2, 1, Real.sqrt 1.5, Real.sqrt 2]
  | LatticeStructure.IDEAL_HCP =>
      [0, 1, Real.sqrt 2, Real.sqrt (8 / 3), Real.sqrt 3]

/-- The list of shell relations built by `get_adjacency_tensors_shelling`
(topology.py): scale the structure's cutoff table by the lattice parameter,
drop the leading zero (`cutoffs.pop(0)`), keep the first
`max_adjacency_order` cutoffs (`cutoffs[:max_adjacency_order]`), and turn
each into a tolerance band around itself. -/
noncomputable def shellingShells {N : ℕ} (pdist : Fin N → Fin N → ℝ)
    (maxDistance latticeParameter : ℝ) (latticeStructure : LatticeStructure)
    (maxAdjacencyOrder : ℕ) (tolerance : ℝ) : List (Fin N → Fin N → Bool) :=
  let D := getDistanceMatrix pdist maxDistance
  let cutoffs := ((STRUCTURE_TO_CUTOFF_LISTS latticeStructure).map
    fun c => latticeParameter * c).tail
  (cutoffs.take maxAdjacencyOrder).map fun c => bandPred D tolerance c c

/-- Embedding of `get_adjacency_tensors_shelling` including the
`sparse.stack` failure on an empty shell list. -/
noncomputable def getAdjacencyTensorsShelling {N : ℕ}
    (pdist : Fin N → Fin N → ℝ) (maxDistance latticeParameter : ℝ)
    (latticeStructure : LatticeStructure) (maxAdjacencyOrder : ℕ)
    (tolerance : ℝ) : Except SparseStackError (List (Fin N → Fin N → Bool)) :=
  let shells := shellingShells pdist maxDistance latticeParameter
    latticeStructure maxAdjacencyOrder tolerance
  if shells.isEmpty then Except.error SparseStackError.emptyStack
  else Except.ok shells

/-- Concrete two-site metric with the sites one unit apart. -/
def pdistTwo : Fin 2 → Fin 2 → ℚ := fun i j => if i = j then 0 else 1

/-- Counterexample to C7 as stated: with `max_distance = 0` the
distance-index operation returns normally instead of raising
`ConfigurationError` — `get_distance_matrix` contains no raise path at all. -/
theorem distance_matrix_zero_cutoff_counterexample :
    getDistanceMatrixE pdistTwo (0 : ℚ) ≠
      Except.error TCEError.configurationError := by
  simp [getDistanceMatrixE]

/-- C7 (amended): calling `get_distance_matrix` with `max_distance ≤ 0`
does not raise; it returns the empty (all-zero) sparse distance matrix,
since no nonnegative pairwise distance survives the cutoff and the zero
filter. -/
theorem distance_matrix_nonpositive_cutoff_empty {α : Type}
    [LinearOrderedField α] {N : ℕ} (pdist : Fin N → Fin N → α) (maxd : α)
    (hnn : ∀ i j, 0 ≤ pdist i j) (hmax : maxd ≤ 0) :
    getDistanceMatrixE pdist maxd = Except.ok (fun _ _ => (0 : α)) := by
  unfold getDistanceMatrixE
  congr 1
  funext i j
  unfold getDistanceMatrix
  by_cases h : pdist i j ≤ maxd ∧ pdist i j ≠ 0
  · exact absurd (le_antisymm (h.1.trans hmax) (hnn i j)) h.2
  · rw [if_neg h]

/-- Witness for C7 (amended): the empty result at a concrete metric and
zero cutoff. -/
theorem distance_matrix_nonpositive_cutoff_empty_witness :
    getDistanceMatrixE pdistTwo (0 : ℚ) = Except.ok (fun _ _ => (0 : ℚ)) :=
  distance_matrix_nonpositive_cutoff_empty pdistTwo 0
    (fun i j => by fin_cases i <;> fin_cases j <;> norm_num [pdistTwo]) le_rfl

theorem cutoff_list_length (ls : LatticeStructure) :
    (STRUCTURE_TO_CUTOFF_LISTS ls).length = 5 := by
  cases ls <;> rfl

/-- C8 (amended): for every requested `max_adjacency_order ≥ 1`,
`get_adjacency_tensors_shelling` returns a stack with exactly
`min(max_adjacency_order, L)` shells, where `L` is the cutoff-table length
after the leading zero is removed and equals 4 for every built-in table;
requests beyond the table truncate silently, with no zero-padding.  (For
`max_adjacency_order = 0` the stack constructor fails instead; see the
counterexample.) -/
theorem shelling_shell_count {N : ℕ} (pdist : Fin N → Fin N → ℝ)
    (maxd lp : ℝ) (ls : LatticeStructure) (maxOrder : ℕ) (tol : ℝ)
    (hord : 1 ≤ maxOrder) :
    getAdjacencyTensorsShelling pdist maxd lp ls maxOrder tol =
      Except.ok (shellingShells pdist maxd lp ls maxOrder tol) ∧
    (shellingShells pdist maxd lp ls maxOrder tol).length =
      min maxOrder ((STRUCTURE_TO_CUTOFF_LISTS ls).length - 1) ∧
    (STRUCTURE_TO_CUTOFF_LISTS ls).length - 1 = 4 := by
  have hlen : (shellingShells pdist maxd lp ls maxOrder tol).length =
      min maxOrder 4 := by
    unfold shellingShells
    rw [List.length_map, List.length_take, List.length_tail, List.length_map,
      cutoff_list_length]
  refine ⟨?_, ?_, ?_⟩
  · unfold getAdjacencyTensorsShelling
    rw [if_neg]
    intro hempty
    rw [List.isEmpty_iff_length_eq_zero, hlen] at hempty
    omega
  · rw [hlen, cutoff_list_length]
  · rw [cutoff_list_length]

/-- Concrete trivial one-site real metric. -/
def pdistOneR : Fin 1 → Fin 1 → ℝ := fun _ _ => 0

/-- Counterexample to C8 as stated: requesting `max_adjacency_order = 0`
does not produce a stack with `min(0, L) = 0` shells; `sparse.stack` fails
on the empty list instead. -/
theorem shelling_zero_order_counterexample :
    getAdjacencyTensorsShelling pdistOneR 1 1 LatticeStructure.SC 0 (1 / 100) =
      Except.error SparseStackError.emptyStack := rfl

/-- Witness for C8 (amended): at a concrete geometry, requesting 2 shells of
the SC table yields exactly `min 2 4 = 2` shells. -/
theorem shelling_shell_count_witness :
    getAdjacencyTensorsShelling pdistOneR 1 1 LatticeStructure.SC 2 (1 / 100) =
      Except.ok (shellingShells pdistOneR 1 1 LatticeStructure.SC 2 (1 / 100)) ∧
    (shellingShells pdistOneR 1 1 LatticeStructure.SC 2 (1 / 100)).length =
      min 2 ((STRUCTURE_TO_CUTOFF_LISTS LatticeStructure.SC).length - 1) ∧
    (STRUCTURE_TO_CUTOFF_LISTS LatticeStructure.SC).length - 1 = 4 :=
  shelling_shell_count pdistOneR 1 1 LatticeStructure.SC 2 (1 / 100)
    (by norm_num)

theorem sq_ratio_mono {X Y : ℝ} (hX : 0 ≤ X) (hY : 0 ≤ Y) (h : X ^ 2 ≤ Y ^ 2) :
    X ≤ Y := by
  rw [← Real.sqrt_sq hX, ← Real.sqrt_sq hY]
  exact Real.sqrt_le_sqrt h

/-- Two tolerance bands with band-to-band ratio at least `101/99` cannot both
contain the same value; for a non-positive lattice parameter the bands are
empty outright. -/
theorem bands_disjoint (lp u v x : ℝ) (hu : 0 ≤ u) (huv : 101 * u ≤ 99 * v) :
    ¬(((1 - 1 / 100) * (lp * u) < x ∧ x < (1 + 1 / 100) * (lp * u)) ∧
      ((1 - 1 / 100) * (lp * v) < x ∧ x < (1 + 1 / 100) * (lp * v))) := by
  rintro ⟨⟨h1, h2⟩, h3, h4⟩
  rcases le_or_lt lp 0 with hlp | hlp
  · have hpa : lp * u ≤ 0 := mul_nonpos_iff.mpr (Or.inr ⟨hlp, hu⟩)
    linarith
  · have key : (1 + 1 / 100) * (lp * u) ≤ (1 - 1 / 100) * (lp * v) := by
      nlinarith [mul_le_mul_of_nonneg_left huv hlp.le]
    linarith

/-- Ratio separation of a cutoff pair, checked on squares. -/
theorem cutoff_pair (u v : ℝ) (hu : 0 ≤ u) (hv : 0 ≤ v)
    (h : (101 * u) ^ 2 ≤ (99 * v) ^ 2) : 0 ≤ u ∧ 101 * u ≤ 99 * v :=
  ⟨hu, sq_ratio_mono (by positivity) (by positivity) h⟩

/-- The popped cutoff tables are pairwise ratio-separated: each earlier
multiplier is nonnegative and at most `99/101` of each later one. -/
theorem cutoff_tail_pairwise (ls : LatticeStructure) :
    ((STRUCTURE_TO_CUTOFF_LISTS ls).tail).Pairwise
      (fun u v => 0 ≤ u ∧ 101 * u ≤ 99 * v) := by
  have s2 : Real.sqrt 2 ^ 2 = 2 := Real.sq_sqrt (by norm_num)
  have s3 : Real.sqrt 3 ^ 2 = 3 := Real.sq_sqrt (by norm_num)
  have s11 : Real.sqrt 11 ^ 2 = 11 := Real.sq_sqrt (by norm_num)
  have s15 : Real.sqrt 1.5 ^ 2 = 1.5 := Real.sq_sqrt (by norm_num)
  have s83 : Real.sqrt (8 / 3) ^ 2 = 8 / 3 := Real.sq_sqrt (by norm_num)
  cases ls <;> simp only [STRUCTURE_TO_CUTOFF_LISTS, List.tail_cons] <;>
    refine List.Pairwise.cons (fun v hv => ?_)
      (List.Pairwise.cons (fun v hv => ?_)
        (List.Pairwise.cons (fun v hv => ?_)
          (List.Pairwise.cons (fun v hv => absurd hv (List.not_mem_nil v))
            List.Pairwise.nil))) <;>
    simp only [List.mem_cons, List.not_mem_nil, or_false] at hv
  -- SC tail [1, √2, √3, 2]
  · rcases hv with rfl | rfl | rfl
    · exact cutoff_pair _ _ (by norm_num) (by positivity) (by nlinarith [s2])
    · exact cutoff_pair _ _ (by norm_num) (by positivity) (by nlinarith [s3])
    · exact cutoff_pair _ _ (by norm_num) (by norm_num) (by norm_num)
  · rcases hv with rfl | rfl
    · exact cutoff_pair _ _ (by positivity) (by positivity) (by nlinarith [s2, s3])
    · exact cutoff_pair _ _ (by positivity) (by norm_num) (by nlinarith [s2])
  · obtain rfl := hv
    exact cutoff_pair _ _ (by positivity) (by norm_num) (by nlinarith [s3])
  -- BCC tail [0.5·√3, 1, √2, 0.5·√11]
  · rcases hv with rfl | rfl | rfl
    · exact cutoff_pair _ _ (by positivity) (by norm_num) (by nlinarith [s3])
    · exact cutoff_pair _ _ (by positivity) (by positivity) (by nlinarith [s3, s2])
    · exact cutoff_pair _ _ (by positivity) (by positivity) (by nlinarith [s3, s11])
  · rcases hv with rfl | rfl
    · exact cutoff_pair _ _ (by norm_num) (by positivity) (by nlinarith [s2])
    · exact cutoff_pair _ _ (by norm_num) (by positivity) (by nlinarith [s11])
  · obtain rfl := hv
    exact cutoff_pair _ _ (by positivity) (by positivity) (by nlinarith [s2, s11])
  -- FCC tail [0.5·√2, 1, √1.5, √2]
  · rcases hv with rfl | rfl | rfl
    · exact cutoff_pair _ _ (by positivity) (by norm_num) (by nlinarith [s2])
    · exact cutoff_pair _ _ (by positivity) (by positivity) (by nlinarith [s2, s15])
    · exact cutoff_pair _ _ (by positivity) (by positivity) (by nlinarith [s2])
  · rcases hv with rfl | rfl
    · exact cutoff_pair _ _ (by norm_num) (by positivity) (by nlinarith [s15])
    · exact cutoff_pair _ _ (by norm_num) (by positivity) (by nlinarith [s2])
  · obtain rfl := hv
    exact cutoff_pair _ _ (by positivity) (by positivity) (by nlinarith [s15, s2])
  -- IDEAL_HCP tail [1, √2, √(8/3), √3]
  · rcases hv with rfl | rfl | rfl
    · exact cutoff_pair _ _ (by norm_num) (by positivity) (by nlinarith [s2])
    · exact cutoff_pair _ _ (by norm_num) (by positivity) (by nlinarith [s83])
    · exact cutoff_pair _ _ (by norm_num) (by positivity) (by nlinarith [s3])
  · rcases hv with rfl | rfl
    · exact cutoff_pair _ _ (by positivity) (by positivity) (by nlinarith [s2, s83])
    · exact cutoff_pair _ _ (by positivity) (by positivity) (by nlinarith [s2, s3])
  · obtain rfl := hv
    exact cutoff_pair _ _ (by positivity) (by positivity) (by nlinarith [s83, s3])

theorem map_tail_eq {β γ : Type} (g : β → γ) (l : List β) :
    (l.map g).tail = l.tail.map g := by
  cases l <;> rfl

/-- C6 (amended): under the default tolerance `0.01`, the shells produced by
the table-driven mode `get_adjacency_tensors_shelling` are pairwise mutually
exclusive for every input: no site pair is true in two distinct shell
orders.  (The binning mode violates this; see the counterexample.) -/
theorem shelling_shells_exclusive {N : ℕ} (pdist : Fin N → Fin N → ℝ)
    (maxd lp : ℝ) (ls : LatticeStructure) (maxOrder : ℕ) :
    (shellingShells pdist maxd lp ls maxOrder (1 / 100)).Pairwise
      (fun f g => ∀ i j : Fin N, ¬(f i j = true ∧ g i j = true)) := by
  unfold shellingShells
  rw [List.pairwise_map]
  refine List.Pairwise.sublist (List.take_sublist _ _) ?_
  rw [map_tail_eq, List.pairwise_map]
  refine (cutoff_tail_pairwise ls).imp ?_
  rintro u v ⟨hu, huv⟩ i j ⟨hf, hg⟩
  rw [bandPred, decide_eq_true_iff] at hf hg
  exact bands_disjoint lp u v _ hu huv ⟨hf, hg⟩

/-- Concrete three-site metric realised by collinear positions 0, 1, 3 in a
large periodic box: distances 1, 2 and 3. -/
def pdistThree : Fin 3 → Fin 3 → ℚ := fun i j =>
  if i.val = j.val then 0
  else if i.val + j.val = 1 then 1
  else if i.val + j.val = 3 then 2
  else 3

theorem pdistThree_distance (i j : Fin 3) :
    getDistanceMatrix pdistThree 10 i j = pdistThree i j := by
  fin_cases i <;> fin_cases j <;> norm_num [getDistanceMatrix, pdistThree]

/-- Counterexample to C6 as stated: in the binning mode with distances
`{1, 2, 3}` and two bins, the histogram edges are `[1, 2, 3]` and the site
pair at distance 2 lies within the default tolerance band of both shell
orders, so the two shells overlap. -/
theorem binning_shells_overlap_counterexample :
    ((binningShells pdistThree 10 2 (1 / 100)).map fun f => f 1 2) =
      [true, true] := by
  have henum : enumPairs 3 =
      [(0, 0), (0, 1), (0, 2), (1, 0), (1, 1), (1, 2), (2, 0), (2, 1), (2, 2)] := by
    decide
  have hdata : cooData (getDistanceMatrix pdistThree 10) = [1, 3, 1, 2, 3, 2] := by
    unfold cooData
    rw [henum]
    simp only [List.map_cons, List.map_nil, pdistThree_distance]
    norm_num [pdistThree, List.filter]
  have hrange : histRange ([1, 3, 1, 2, 3, 2] : List ℚ) = (1, 3) := by
    simp only [histRange, List.foldl]
    norm_num [min_def, max_def]
  have hedges : histEdges (1 : ℚ) 3 2 = [1, 2, 3] := by
    have hr : List.range 3 = [0, 1, 2] := by decide
    unfold histEdges
    rw [hr]
    norm_num
  show (((histEdges (histRange (cooData (getDistanceMatrix pdistThree 10))).1
      (histRange (cooData (getDistanceMatrix pdistThree 10))).2 2).zip
      ((histEdges (histRange (cooData (getDistanceMatrix pdistThree 10))).1
        (histRange (cooData (getDistanceMatrix pdistThree 10))).2 2).tail)).map
      (fun e => bandPred (getDistanceMatrix pdistThree 10) (1 / 100) e.1 e.2)).map
      (fun f => f 1 2) = [true, true]
  rw [hdata, hrange, hedges]
  simp only [List.zip_cons_cons, List.zip_nil_right, List.tail_cons, List.map_cons,
    List.map_nil, bandPred, List.cons.injEq, and_true]
  rw [pdistThree_distance]
  norm_num [pdistThree]

theorem getDistanceMatrix_symm {α : Type} [LinearOrderedField α] {N : ℕ}
    (pdist : Fin N → Fin N → α) (maxd : α) (hp : ∀ i j, pdist i j = pdist j i)
    (i j : Fin N) : getDistanceMatrix pdist maxd i j = getDistanceMatrix pdist maxd j i := by
  unfold getDistanceMatrix
  rw [hp i j]

theorem getDistanceMatrix_diag {α : Type} [LinearOrderedField α] {N : ℕ}
    (pdist : Fin N → Fin N → α) (maxd : α) (hp : ∀ i, pdist i i = 0) (i : Fin N) :
    getDistanceMatrix pdist maxd i i = 0 := by
  unfold getDistanceMatrix
  rw [hp i]
  simp

theorem foldl_min_le_foldl_max {α : Type} [LinearOrder α] (l : List α) :
    ∀ (x y : α), x ≤ y → l.foldl min x ≤ l.foldl max y := by
  induction l with
  | nil => exact fun x y h => h
  | cons a l ih =>
    intro x y h
    exact ih (min x a) (max y a)
      (le_trans (min_le_left x a) (le_trans h (le_max_left y a)))

theorem histRange_le {α : Type} [LinearOrderedField α] (data : List α) :
    (histRange data).1 ≤ (histRange data).2 := by
  match data with
  | [] => norm_num [histRange]
  | x :: xs =>
    simp only [histRange]
    by_cases h : xs.foldl min x = xs.foldl max x
    · rw [if_pos h]
      simp only
      rw [h]
      linarith
    · rw [if_neg h]
      exact foldl_min_le_foldl_max xs x x le_rfl

theorem histEdges_lo_le {α : Type} [LinearOrderedField α] {lo hi : α}
    (hle : lo ≤ hi) (bins : ℕ) : ∀ e ∈ histEdges lo hi bins, lo ≤ e := by
  intro e he
  unfold histEdges at he
  obtain ⟨n, _, rfl⟩ := List.mem_map.mp he
  have hn0 : (0 : α) ≤ (n : α) := Nat.cast_nonneg n
  have h1 : (0 : α) ≤ (n : α) * (hi - lo) / (bins : α) :=
    div_nonneg (mul_nonneg hn0 (sub_nonneg.mpr hle)) (Nat.cast_nonneg bins)
  linarith

/-- C9 (amended): every shell relation produced by either mode is a
symmetric boolean relation when the underlying metric is symmetric; the
table-driven shells always have an all-false diagonal; and the binning-mode
shells have an all-false diagonal whenever the histogram's lower range bound
is nonnegative (which can fail only when every stored distance equals one
value `v < 1/2`; see the counterexample). -/
theorem shells_symmetric_and_false_diagonal :
    (∀ (N : ℕ) (pdist : Fin N → Fin N → ℚ) (maxd : ℚ) (maxOrder : ℕ) (tol : ℚ),
      (∀ i j, pdist i j = pdist j i) →
      ∀ f ∈ binningShells pdist maxd maxOrder tol, ∀ i j, f i j = f j i) ∧
    (∀ (N : ℕ) (pdist : Fin N → Fin N → ℝ) (maxd lp : ℝ) (ls : LatticeStructure)
      (maxOrder : ℕ) (tol : ℝ),
      (∀ i j, pdist i j = pdist j i) →
      ∀ f ∈ shellingShells pdist maxd lp ls maxOrder tol, ∀ i j, f i j = f j i) ∧
    (∀ (N : ℕ) (pdist : Fin N → Fin N → ℝ) (maxd lp : ℝ) (ls : LatticeStructure)
      (maxOrder : ℕ) (tol : ℝ), 0 ≤ tol → tol ≤ 1 → (∀ i, pdist i i = 0) →
      ∀ f ∈ shellingShells pdist maxd lp ls maxOrder tol, ∀ i, f i i = false) ∧
    (∀ (N : ℕ) (pdist : Fin N → Fin N → ℚ) (maxd : ℚ) (maxOrder : ℕ) (tol : ℚ),
      0 ≤ tol → tol ≤ 1 → (∀ i, pdist i i = 0) →
      0 ≤ (histRange (cooData (getDistanceMatrix pdist maxd))).1 →
      ∀ f ∈ binningShells pdist maxd maxOrder tol, ∀ i, f i i = false) := by
  have hband_symm : ∀ {α : Type} [inst : LinearOrderedField α] {N : ℕ}
      (D : Fin N → Fin N → α) (tol lo hi : α), (∀ i j, D i j = D j i) →
      ∀ i j, bandPred D tol lo hi i j = bandPred D tol lo hi j i := by
    intro α inst N D tol lo hi hD i j
    unfold bandPred
    rw [hD i j]
  refine ⟨?_, ?_, ?_, ?_⟩
  · intro N pdist maxd maxOrder tol hp f hf i j
    obtain ⟨e, _, rfl⟩ := List.mem_map.mp hf
    exact hband_symm _ _ _ _ (getDistanceMatrix_symm pdist maxd hp) i j
  · intro N pdist maxd lp ls maxOrder tol hp f hf i j
    obtain ⟨c, _, rfl⟩ := List.mem_map.mp hf
    exact hband_symm _ _ _ _ (getDistanceMatrix_symm pdist maxd hp) i j
  · intro N pdist maxd lp ls maxOrder tol htol0 htol1 hdiag f hf i
    obtain ⟨c, _, rfl⟩ := List.mem_map.mp hf
    unfold bandPred
    rw [getDistanceMatrix_diag pdist maxd hdiag i]
    rw [decide_eq_false_iff_not]
    rintro ⟨h1, h2⟩
    rcases le_or_lt 0 c with hc | hc
    · nlinarith
    · nlinarith
  · intro N pdist maxd maxOrder tol htol0 htol1 hdiag hlo f hf i
    obtain ⟨e, he, rfl⟩ := List.mem_map.mp hf
    have he1 : e.1 ∈ histEdges (histRange (cooData (getDistanceMatrix pdist maxd))).1
        (histRange (cooData (getDistanceMatrix pdist maxd))).2 maxOrder := by
      have := List.of_mem_zip he
      exact this.1
    have hge : 0 ≤ e.1 :=
      le_trans hlo (histEdges_lo_le (histRange_le _) maxOrder e.1 he1)
    unfold bandPred
    rw [getDistanceMatrix_diag pdist maxd hdiag i]
    rw [decide_eq_false_iff_not]
    rintro ⟨h1, h2⟩
    nlinarith

/-- Two-site metric in which all stored distances equal `3/10 < 1/2`; the
histogram range then starts below zero. -/
def pdistDeg : Fin 2 → Fin 2 → ℚ := fun i j => if i.val = j.val then 0 else 3 / 10

/-- Counterexample to C9 as stated: with all stored distances equal to
`0.3`, `np.histogram` expands its range to `(-0.2, 0.8)`, the lower band
edge becomes negative, and the absent diagonal entries (read as 0 on the
sparse matrix) satisfy the band predicate: the binning-mode shell has a true
diagonal. -/
theorem binning_shell_true_diagonal_counterexample :
    ((binningShells pdistDeg 1 1 (1 / 100)).map fun f => f 0 0) = [true] := by
  have henum : enumPairs 2 = [(0, 0), (0, 1), (1, 0), (1, 1)] := by decide
  have hD : ∀ i j, getDistanceMatrix pdistDeg 1 i j = pdistDeg i j := by
    intro i j
    fin_cases i <;> fin_cases j <;> norm_num [getDistanceMatrix, pdistDeg]
  have hdata : cooData (getDistanceMatrix pdistDeg 1) = [3 / 10, 3 / 10] := by
    unfold cooData
    rw [henum]
    simp only [List.map_cons, List.map_nil, hD]
    norm_num [pdistDeg, List.filter]
  have hrange : histRange ([3 / 10, 3 / 10] : List ℚ) = (-1 / 5, 4 / 5) := by
    simp only [histRange, List.foldl]
    norm_num [min_def, max_def]
  have hedges : histEdges (-1 / 5 : ℚ) (4 / 5) 1 = [-1 / 5, 4 / 5] := by
    have hr : List.range 2 = [0, 1] := by decide
    unfold histEdges
    rw [hr]
    norm_num
  show (((histEdges (histRange (cooData (getDistanceMatrix pdistDeg 1))).1
      (histRange (cooData (getDistanceMatrix pdistDeg 1))).2 1).zip
      ((histEdges (histRange (cooData (getDistanceMatrix pdistDeg 1))).1
        (histRange (cooData (getDistanceMatrix pdistDeg 1))).2 1).tail)).map
      (fun e => bandPred (getDistanceMatrix pdistDeg 1) (1 / 100) e.1 e.2)).map
      (fun f => f 0 0) = [true]
  rw [hdata, hrange, hedges]
  simp only [List.zip_cons_cons, List.zip_nil_right, List.tail_cons, List.map_cons,
    List.map_nil, bandPred, List.cons.injEq, and_true]
  rw [hD]
  norm_num [pdistDeg]

/-- Witness for C9 (amended): symmetry of a concrete binning shell at a
concrete site pair, with the metric-symmetry hypothesis discharged by
computation. -/
theorem shells_symmetric_and_false_diagonal_witness :
    (binningShells pdistThree (10 : ℚ) 2 (1 / 100)).get ⟨0, by decide⟩ 0 1 =
      (binningShells pdistThree (10 : ℚ) 2 (1 / 100)).get ⟨0, by decide⟩ 1 0 :=
  shells_symmetric_and_false_diagonal.1 3 pdistThree 10 2 (1 / 100)
    (fun i j => by fin_cases i <;> fin_cases j <;> rfl)
    _ (List.get_mem _ _ _) 0 1

end TCE
